import Mathlib

/-!
Verification of the health-clawkit CSV ingestion pipeline.

Shallow embedding of the core pipeline of the repository:
  src/daily_import.py        (orchestrator: hashing, classification, routing, archiving)
  src/import_healthkit.py    (generic wide-metric normalizer and merge)
  src/import_workouts.py     (workouts normalizer)
  src/import_medications.py  (medications normalizer)
  src/import_cycletracking.py(cycle-tracking normalizer)
  src/validate.py            (data-quality validator)
  src/init_db.py             (fact-table uniqueness keys)

Modelling conventions:
  - timestamps and calendar dates are abstract integers (the code relies only on
    equality and ordering of parsed datetimes / DATE values);
  - SQL DOUBLE values are rationals;
  - file hashes are abstract strings (the pipeline only ever compares them for
    equality; SHA-256 itself is not modelled);
  - a CSV file on disk is an Option of its parsed table; none stands for a file
    that cannot be read or whose mandatory datetime column fails to parse, both
    of which the importers turn into a -1 error return;
  - the DuckDB tables are lists of records; INSERT OR IGNORE against a UNIQUE
    key is a fold that appends a record only when its key is absent.
-/

namespace HealthClawkit

/-! ## Basic string utilities (Python semantics) -/

/-- Whitespace characters recognised by Python's str.strip and by the regex
class backslash-s on ASCII input. -/
def wsChar (c : Char) : Bool :=
  c = ' ' || c = '\t' || c = '\n' || c = '\r' || c = '\x0b' || c = '\x0c'

/-- Remove leading whitespace from a character list. -/
def stripLeftChars (s : List Char) : List Char := s.dropWhile wsChar

/-- Remove trailing whitespace from a character list. -/
def stripRightChars (s : List Char) : List Char :=
  (s.reverse.dropWhile wsChar).reverse

/-- Python str.strip: remove leading and trailing whitespace. -/
def stripChars (s : List Char) : List Char := stripLeftChars (stripRightChars s)

/-- Python str.startswith, over the character lists (kernel-reducible). -/
def strStartsWith (s pat : String) : Bool :=
  pat.toList.isPrefixOf s.toList

/-- SQL LIKE with percent on both sides: does pat occur as a contiguous
substring of s? (Case-sensitive, as in DuckDB.) -/
def hasSubstr (s pat : String) : Bool :=
  (List.range (s.toList.length + 1)).any fun i => pat.toList.isPrefixOf (s.toList.drop i)

/-- SQL ABS on a rational value. -/
def sqlAbs (q : ℚ) : ℚ := if q < 0 then -q else q

/-- SQL AVG over a window frame: NULL on an empty frame, otherwise sum / count. -/
def sqlAvg (l : List ℚ) : Option ℚ :=
  if l = [] then none else some (l.sum / l.length)

/-! ## Data model (init_db.py)

Tables created by init_database (src/init_db.py lines 33-143), with the
file_hash column added to imports by migrate_add_file_hash.py. -/

/-- A row of the readings fact table; PRIMARY KEY (timestamp, metric, source)
(init_db.py lines 33-42). -/
structure Reading where
  timestamp : Int
  metric : String
  value : ℚ
  unit : String
  source : String
deriving DecidableEq, Repr

/-- A row of the workouts fact table; UNIQUE(start_time, type)
(init_db.py lines 114-132). -/
structure Workout where
  startTime : Int
  endTime : Option Int
  wtype : String
  durationSeconds : Option Int
  totalEnergyKcal : Option ℚ
  activeEnergyKcal : Option ℚ
  maxHeartRate : Option ℚ
  avgHeartRate : Option ℚ
  distanceKm : Option ℚ
  stepCount : Option Int
deriving DecidableEq, Repr

/-- A row of the medications fact table; UNIQUE(timestamp, medication)
(init_db.py lines 85-100). -/
structure MedEvent where
  timestamp : Int
  scheduledAt : Option Int
  medication : String
  dosage : Option ℚ
  scheduledDosage : Option ℚ
  unit : String
  status : String
deriving DecidableEq, Repr

/-- A row of the imports ledger table; filename UNIQUE, file_hash nullable
(init_db.py lines 71-82 plus migrate_add_file_hash.py). -/
structure ImportRec where
  filename : String
  importedAt : Int
  rowsAdded : Int
  source : String
  fileHash : Option String
deriving DecidableEq, Repr

/-- The whole DuckDB database state touched by the pipeline. -/
structure DB where
  readings : List Reading
  workouts : List Workout
  medications : List MedEvent
  imports : List ImportRec
deriving DecidableEq, Repr

/-- Uniqueness key of a reading: PRIMARY KEY (timestamp, metric, source). -/
def readingKey (r : Reading) : Int × String × String :=
  (r.timestamp, r.metric, r.source)

/-- Uniqueness key of a workout: UNIQUE(start_time, type). -/
def workoutKey (w : Workout) : Int × String := (w.startTime, w.wtype)

/-- Uniqueness key of a medication event: UNIQUE(timestamp, medication). -/
def medKey (m : MedEvent) : Int × String := (m.timestamp, m.medication)

/-- Ledger lookup by filename (SELECT ... FROM imports WHERE filename = ?). -/
def lookupImport (imports : List ImportRec) (name : String) : Option ImportRec :=
  imports.find? fun rec => rec.filename = name

/-! ## Idempotent merge engine

INSERT OR IGNORE INTO a table with a UNIQUE key: each incoming record is
appended only when no stored record already has its key; a key collision is
silently dropped, never an error and never an overwrite
(import_healthkit.py lines 127-138 and the analogous blocks of the other
 importers). -/

/-- One INSERT OR IGNORE: append r unless its key is already present. -/
def insertIfAbsent {α β : Type} [DecidableEq β] (key : α → β)
    (table : List α) (r : α) : List α :=
  if table.any (fun x => key x = key r) then table else table ++ [r]

/-- INSERT OR IGNORE of a whole record set, in order. -/
def mergeBy {α β : Type} [DecidableEq β] (key : α → β)
    (table : List α) (rs : List α) : List α :=
  rs.foldl (insertIfAbsent key) table

/-- Merge canonical readings into the readings table. -/
def mergeReadings (table rs : List Reading) : List Reading :=
  mergeBy readingKey table rs

/-- Merge workout records into the workouts table. -/
def mergeWorkouts (table rs : List Workout) : List Workout :=
  mergeBy workoutKey table rs

/-- Merge medication events into the medications table. -/
def mergeMedications (table rs : List MedEvent) : List MedEvent :=
  mergeBy medKey table rs



/-! ## Metric column parsing (import_healthkit.py lines 24-42)

parse_metric_column matches the header against the Python regex
  caret (.+?) backslash-s* backslash-( ([caret-)]+) backslash-) dollar
with re.match and returns the two stripped groups, or (header, empty) when
there is no match.  The embedding follows the engine's semantics exactly:
the first group is lazy, so the name grows one character at a time (a dot
never matches a newline), after the name a maximal whitespace run must end
at a literal open parenthesis (the run is maximal because an open
parenthesis is not whitespace, so no shorter run can be followed by one),
and the rest of the header must be a non-empty run of characters other than
close parenthesis followed by a final close parenthesis. -/

/-- Match the regex tail against the characters following the open
parenthesis: the remainder must be unit ++ close-paren — where the dollar
anchor also matches just before one final newline — with the unit non-empty
and free of close parentheses. -/
def unitGroup (u : List Char) : Option (List Char) :=
  let core := if u.getLast? = some '\n' then u.dropLast else u
  if 2 ≤ core.length ∧ core.getLast? = some ')' ∧ ')' ∉ core.dropLast then
    some core.dropLast
  else none

/-- After the lazily-matched name: skip whitespace maximally, require an open
parenthesis, then match the unit group up to the end of the header. -/
def matchAfterName (rest : List Char) : Option (List Char) :=
  match rest.dropWhile wsChar with
  | '(' :: u => unitGroup u
  | _ => none

/-- The engine's lazy scan: the name (group 1) consumes one more character at
each step, and each character must not be a newline (the dot of the pattern);
as soon as the remainder matches the rest of the pattern the scan stops.
Once a newline would have to enter the name, no longer name can match either,
so the scan fails. -/
def lazyScan : List Char → List Char → Option (List Char × List Char)
  | _, [] => none
  | nameRev, c :: rest =>
    if c = '\n' then none
    else
      match matchAfterName rest with
      | some u => some ((c :: nameRev).reverse, u)
      | none => lazyScan (c :: nameRev) rest

/-- Extract metric name and unit from a column header
(import_healthkit.py lines 24-42). -/
def parse_metric_column (s : String) : String × String :=
  match lazyScan [] s.toList with
  | some (name, u) => (String.mk (stripChars name), String.mk (stripChars u))
  | none => (s, "")

/-! Declarative reading of the regex, for the refinement theorem: the match
splits the header at the earliest open parenthesis that is followed by a
non-empty run of characters other than a close parenthesis and then the
final close parenthesis, provided a non-empty newline-free name (possibly
followed by whitespace) precedes that open parenthesis. -/

/-- The length of the shortest name the engine can assign for a split at
index j: everything before j minus the whitespace run directly before j,
but at least one character (the first group is non-empty). -/
def nameBound (s : List Char) (j : Nat) : Nat :=
  max (stripRightChars (s.take j)).length 1

/-- Is index j a split the regex can use?  The character there is an open
parenthesis, the tail is a valid unit group, at least one character precedes
(the name group is non-empty), and the shortest assignable name holds no
newline (the dot of the pattern never matches a newline, and a longer name
would only add whitespace in front of more whitespace). -/
def validJ (s : List Char) (j : Nat) : Bool :=
  (s.get? j = some '(') && (unitGroup (s.drop (j + 1))).isSome &&
  decide (1 ≤ j) && !(decide ('\n' ∈ s.take (nameBound s j)))

/-- The index the lazy engine settles on: the least valid split index. -/
def specSplitIdx (s : List Char) : Option Nat :=
  (List.range s.length).find? (validJ s)

/-- The declarative companion of parse_metric_column: split at the least
valid index, strip both groups; headers with no valid index map to
(header, empty). -/
def spec_parse_metric_column (s : String) : String × String :=
  match specSplitIdx s.toList with
  | some j =>
      (String.mk (stripChars (s.toList.take j)),
       String.mk (stripChars ((unitGroup (s.toList.drop (j + 1))).getD [])))
  | none => (s, "")

/-! ## Python float() literal recognition

 import_cycletracking.py line 82 tries float(value_str) and falls back to a
category table on ValueError.  The recogniser below implements the CPython
grammar for float literals: surrounding whitespace, an optional sign, and
either a finite decimal literal (digit runs may contain single underscores
between digits, an optional fractional part, an optional exponent) or one of
the case-insensitive words inf, infinity, nan.  Non-finite values have no
rational magnitude; only the strings inf/infinity/nan produce them and no
claim concerns their stored value, so the finite parser returns none for
them and acceptance is tracked separately. -/

/-- Is the character a decimal digit or an underscore? -/
def digitOrUnderscore (c : Char) : Bool := c.isDigit || c = '_'

/-- No two consecutive underscores in a digit run. -/
def noDoubleUnderscore : List Char → Bool
  | c1 :: c2 :: rest =>
      (!(c1 = '_' && c2 = '_')) && noDoubleUnderscore (c2 :: rest)
  | _ => true

/-- A valid Python digit run: non-empty, starts and ends with a digit, and
every underscore sits between two digits. -/
def validDigitRun (run : List Char) : Bool :=
  (!run.isEmpty) &&
  (match run.head? with | some c => c.isDigit | none => false) &&
  (match run.getLast? with | some c => c.isDigit | none => false) &&
  noDoubleUnderscore run

/-- Numeric value of a digit run, ignoring the underscores. -/
def runValue (run : List Char) : Nat :=
  run.foldl (fun a c => if c.isDigit then a * 10 + (c.toNat - '0'.toNat) else a) 0

/-- Number of actual digits in a digit run. -/
def runDigits (run : List Char) : Nat := (run.filter Char.isDigit).length

/-- Parse the mantissa of a finite float literal: digits, digits dot digits?,
or dot digits.  Returns the mantissa as an integer together with the count of
fractional digits (the value is mantissa / 10 ^ count), plus the unconsumed
remainder; everything stays in Nat so that concrete runs reduce in the
kernel. -/
def mantissaParse (t : List Char) : Option ((Nat × Nat) × List Char) :=
  let intRun := t.takeWhile digitOrUnderscore
  let afterInt := t.drop intRun.length
  if intRun.isEmpty then
    match afterInt with
    | '.' :: t2 =>
        let fracRun := t2.takeWhile digitOrUnderscore
        if validDigitRun fracRun then
          some ((runValue fracRun, runDigits fracRun), t2.drop fracRun.length)
        else none
    | _ => none
  else
    if validDigitRun intRun then
      match afterInt with
      | '.' :: t2 =>
          let fracRun := t2.takeWhile digitOrUnderscore
          if fracRun.isEmpty then some ((runValue intRun, 0), t2)
          else if validDigitRun fracRun then
            some ((runValue intRun * 10 ^ runDigits fracRun + runValue fracRun,
                   runDigits fracRun),
                  t2.drop fracRun.length)
          else none
      | _ => some ((runValue intRun, 0), afterInt)
    else none

/-- Parse an optional exponent part and require the end of the input. -/
def exponentParse (t : List Char) : Option Int :=
  match t with
  | [] => some 0
  | e :: t1 =>
      if e = 'e' ∨ e = 'E' then
        let (esign, t2) : Int × List Char :=
          match t1 with
          | '+' :: r => (1, r)
          | '-' :: r => (-1, r)
          | _ => (1, t1)
        let eRun := t2.takeWhile digitOrUnderscore
        if validDigitRun eRun ∧ (t2.drop eRun.length).isEmpty then
          some (esign * (runValue eRun : Int))
        else none
      else none

/-- The pieces of a finite float literal: sign, integer mantissa, count of
fractional digits, exponent. -/
structure FloatLit where
  neg : Bool
  mant : Nat
  fracDigits : Nat
  exp : Int
deriving DecidableEq, Repr

/-- Parse a finite float literal into its pieces (pure Nat/Int arithmetic,
kernel-reducible). -/
def pyFloatParse (s : String) : Option FloatLit :=
  let t := stripChars s.toList
  let (neg, t1) : Bool × List Char :=
    match t with
    | '+' :: r => (false, r)
    | '-' :: r => (true, r)
    | _ => (false, t)
  match mantissaParse t1 with
  | none => none
  | some ((m, fd), rest) =>
      match exponentParse rest with
      | none => none
      | some e => some ⟨neg, m, fd, e⟩

/-- Rational value of a finite float literal. -/
def floatLitVal (f : FloatLit) : ℚ :=
  (if f.neg then -1 else 1) * (f.mant : ℚ) / (10 : ℚ) ^ f.fracDigits * (10 : ℚ) ^ f.exp

/-- The finite-literal part of Python float(): some value iff the string is a
valid finite decimal literal. -/
def pyFloatFinite (s : String) : Option ℚ :=
  (pyFloatParse s).map floatLitVal

/-- Does the string spell an infinity or nan (accepted by float() but with no
finite magnitude)? -/
def pyFloatNonFinite (s : String) : Bool :=
  let t := stripChars s.toList
  let t1 :=
    match t with
    | '+' :: r => r
    | '-' :: r => r
    | _ => t
  let low := t1.map Char.toLower
  low = "inf".toList || low = "infinity".toList || low = "nan".toList

/-- Does float(s) succeed? -/
def pyFloatAccepts (s : String) : Bool :=
  (pyFloatParse s).isSome || pyFloatNonFinite s

/-! ## Cycle-tracking value encoding (import_cycletracking.py lines 72-103) -/

/-- The fixed category table value_mapping with dict.get default 0.0
(import_cycletracking.py lines 86-95). -/
def cycleCategoryScalar (v : String) : ℚ :=
  if v = "Unspecified" then 0
  else if v = "Light" then 1
  else if v = "Medium" then 2
  else if v = "Heavy" then 3
  else if v = "None" then 0
  else if v = "Yes" then 1
  else if v = "No" then 0
  else 0

/-- Numeric value stored for a cycle-tracking Value cell: float(value_str) if
it parses, otherwise the category table (import_cycletracking.py lines
80-95).  The placeholder 0 for the three non-finite spellings is never
relied on by any theorem. -/
def cycleNumericValue (v : String) : ℚ :=
  if pyFloatAccepts v then (pyFloatFinite v).getD 0 else cycleCategoryScalar v

/-- The reading record built for one cycle-tracking row
(import_cycletracking.py lines 97-103): the original Value string is always
stored verbatim in the unit field. -/
def cycleReading (start : Int) (data v : String) : Reading :=
  { timestamp := start
    metric := "Cycle Tracking - " ++ data
    value := cycleNumericValue v
    unit := v
    source := "cycletracking" }

/-! ## Files on disk

A source file as an importer sees it: the path may not exist
(checked first, before the ledger guard), reading or mandatory datetime
parsing may raise (caught by the importer's try/except and turned into -1),
or the file parses into a table. -/

/-- State of a CSV path for an importer. -/
inductive FileOnDisk (α : Type)
  | missing
  | unreadable
  | parsed (a : α)
deriving DecidableEq, Repr

/-! ## Generic wide-metric importer (import_healthkit.py lines 44-184) -/

/-- One row of a wide HealthMetrics CSV after pandas parsing: the parsed
Date/Time value, and one cell per metric column (none = empty/NaN cell of
the sparse wide format). -/
structure WideRow where
  ts : Int
  cells : List (String × Option ℚ)
deriving DecidableEq, Repr

/-- A parsed wide CSV: header columns and rows. -/
structure WideCsv where
  cols : List String
  rows : List WideRow
deriving DecidableEq, Repr

/-- Cell of a row under a column name. -/
def cellValue (row : WideRow) (c : String) : Option ℚ :=
  (row.cells.find? fun p => p.1 = c).bind Prod.snd

/-- The canonical reading built from one melted cell: metric name and unit
come from parse_metric_column (import_healthkit.py lines 110-117). -/
def healthReading (ts : Int) (col : String) (v : ℚ) (source : String) : Reading :=
  { timestamp := ts
    metric := (parse_metric_column col).1
    value := v
    unit := (parse_metric_column col).2
    source := source }

/-- Melt wide to long and drop empty cells (import_healthkit.py lines
96-107): pandas melt stacks the value columns one after the other, each in
row order. -/
def meltWide (csv : WideCsv) (source : String) : List Reading :=
  (csv.cols.filter fun c => c ≠ "Date/Time").flatMap fun c =>
    csv.rows.filterMap fun row => (cellValue row c).map fun v => healthReading row.ts c v source

/-- drop_duplicates keep=first on a key: keep the first occurrence of each
key, in order (import_healthkit.py lines 119-121).  This is exactly an
insert-if-absent merge into an empty table. -/
def dedupBy {α β : Type} [DecidableEq β] (key : α → β) (l : List α) : List α :=
  mergeBy key [] l

/-- UPDATE imports SET imported_at, rows_added, file_hash WHERE filename
(import_healthkit.py lines 142-146). -/
def updateImport (imports : List ImportRec) (name : String) (now : Int)
    (rows : Int) (hash : Option String) : List ImportRec :=
  imports.map fun r =>
    if r.filename = name then
      { r with importedAt := now, rowsAdded := rows, fileHash := hash }
    else r

/-- import_csv (import_healthkit.py lines 44-184).  Returns the rows-added
count (or -1 on error) and the new database state.  The now argument stands
for datetime.now(). -/
def import_csv (db : DB) (filename : String) (file : FileOnDisk WideCsv)
    (fileHash : Option String) (isReimport : Bool) (source : String)
    (now : Int) : Int × DB :=
  if file = .missing then (-1, db)
  else
    let existing := lookupImport db.imports filename
    if existing.isSome ∧ ¬ isReimport then (0, db)
    else
      match file with
      | .missing => (-1, db)
      | .unreadable => (-1, db)
      | .parsed csv =>
        if "Date/Time" ∉ csv.cols then (-1, db)
        else
          let deduped := dedupBy readingKey (meltWide csv source)
          let merged := mergeReadings db.readings deduped
          let added : Int := (merged.length : Int) - (db.readings.length : Int)
          let imports' :=
            if isReimport ∧ existing.isSome then
              updateImport db.imports filename now added fileHash
            else
              db.imports ++ [⟨filename, now, added, source, fileHash⟩]
          (added, { db with readings := merged, imports := imports' })

/-! ## Workouts importer (import_workouts.py) -/

/-- Python int() on a string: optional whitespace and sign, then a digit run
(underscores between digits allowed). -/
def pyIntParse (t : List Char) : Option Int :=
  let t0 := stripChars t
  let (neg, t1) : Bool × List Char :=
    match t0 with
    | '+' :: r => (false, r)
    | '-' :: r => (true, r)
    | _ => (false, t0)
  if validDigitRun t1 && (t1.takeWhile digitOrUnderscore).length = t1.length then
    some (if neg then -(runValue t1 : Int) else (runValue t1 : Int))
  else none

/-- parse_duration (import_workouts.py lines 19-31): HH:MM:SS or MM:SS to
whole seconds, anything else (including a missing cell) to null. -/
def parse_duration (s : Option String) : Option Int :=
  match s with
  | none => none
  | some str =>
    if str = "" then none
    else
      match str.toList.splitOn ':' with
      | [h, m, sec] =>
          (pyIntParse h).bind fun a =>
            (pyIntParse m).bind fun b =>
              (pyIntParse sec).map fun c => a * 3600 + b * 60 + c
      | [m, sec] =>
          (pyIntParse m).bind fun a =>
            (pyIntParse sec).map fun b => a * 60 + b
      | _ => none

/-- One row of a Workouts CSV after pandas parsing.  Numeric cells carry the
safe_float/safe_int results (null for non-numeric or empty cells,
 import_workouts.py lines 34-47); the duration is kept raw for
parse_duration. -/
structure WorkoutRow where
  start : Option Int
  endT : Option Int
  wtype : Option String
  duration : Option String
  totalEnergy : Option ℚ
  activeEnergy : Option ℚ
  maxHr : Option ℚ
  avgHr : Option ℚ
  distance : Option ℚ
  steps : Option Int
deriving DecidableEq, Repr

/-- A parsed Workouts CSV. -/
structure WorkoutsCsv where
  cols : List String
  rows : List WorkoutRow
deriving DecidableEq, Repr

/-- The workout records built from the rows, with rows missing start time or
type dropped (import_workouts.py lines 85-101). -/
def workoutRecords (rows : List WorkoutRow) : List Workout :=
  rows.filterMap fun r =>
    match r.start, r.wtype with
    | some st, some ty =>
        some { startTime := st, endTime := r.endT, wtype := ty
               durationSeconds := parse_duration r.duration
               totalEnergyKcal := r.totalEnergy
               activeEnergyKcal := r.activeEnergy
               maxHeartRate := r.maxHr
               avgHeartRate := r.avgHr
               distanceKm := r.distance
               stepCount := r.steps }
    | _, _ => none

/-- import_workouts_csv (import_workouts.py lines 50-146). -/
def import_workouts_csv (db : DB) (filename : String)
    (file : FileOnDisk WorkoutsCsv) (fileHash : Option String)
    (isReimport : Bool) (now : Int) : Int × DB :=
  if file = .missing then (-1, db)
  else
    let existing := lookupImport db.imports filename
    if existing.isSome ∧ ¬ isReimport then (0, db)
    else
      match file with
      | .missing => (-1, db)
      | .unreadable => (-1, db)
      | .parsed csv =>
        if "Type" ∉ csv.cols ∨ "Start" ∉ csv.cols then (-1, db)
        else
          let merged := mergeWorkouts db.workouts (workoutRecords csv.rows)
          let added : Int := (merged.length : Int) - (db.workouts.length : Int)
          let imports' :=
            if isReimport ∧ existing.isSome then
              updateImport db.imports filename now added fileHash
            else
              db.imports ++ [⟨filename, now, added, "workouts", fileHash⟩]
          (added, { db with workouts := merged, imports := imports' })

/-! ## Medications importer (import_medications.py)

 import_medications_csv takes a single parameter, the path: there is no
file_hash and no is_reimport parameter (import_medications.py line 19), and
its ledger INSERT names no file_hash column (lines 84-87). -/

/-- One row of a Medications CSV after pandas parsing.  The Date column is
parsed with errors=raise: an unparseable non-empty cell raises for the whole
file (modelled as FileOnDisk.unreadable), while an empty cell gives NaT
(modelled as none, later dropped). -/
structure MedRow where
  date : Option Int
  scheduledAt : Option Int
  archived : String
  medication : Option String
  dosage : Option ℚ
  scheduledDosage : Option ℚ
  unit : String
  status : String
deriving DecidableEq, Repr

/-- A parsed Medications CSV. -/
structure MedCsv where
  cols : List String
  rows : List MedRow
deriving DecidableEq, Repr

/-- The medication events built from the rows: archived rows are excluded
first (when the Archived column exists), then rows missing timestamp or
medication are dropped (import_medications.py lines 51-69). -/
def medRecords (csv : MedCsv) : List MedEvent :=
  let rows1 :=
    if "Archived" ∈ csv.cols then csv.rows.filter fun r => r.archived ≠ "Yes"
    else csv.rows
  rows1.filterMap fun r =>
    match r.date, r.medication with
    | some d, some m =>
        some { timestamp := d, scheduledAt := r.scheduledAt, medication := m
               dosage := r.dosage, scheduledDosage := r.scheduledDosage
               unit := r.unit, status := r.status }
    | _, _ => none

/-- import_medications_csv (import_medications.py lines 19-102).  The guard
on an existing ledger record is unconditional, and the ledger INSERT omits
file_hash, leaving it NULL. -/
def import_medications_csv (db : DB) (filename : String)
    (file : FileOnDisk MedCsv) (now : Int) : Int × DB :=
  if file = .missing then (-1, db)
  else
    if (lookupImport db.imports filename).isSome then (0, db)
    else
      match file with
      | .missing => (-1, db)
      | .unreadable => (-1, db)
      | .parsed csv =>
        if "Date" ∉ csv.cols then (-1, db)
        else if "Medication" ∉ csv.cols then (-1, db)
        else
          let merged := mergeMedications db.medications (medRecords csv)
          let added : Int := (merged.length : Int) - (db.medications.length : Int)
          (added,
           { db with medications := merged
                     imports := db.imports ++ [⟨filename, now, added, "medications", none⟩] })

/-! ## Cycle-tracking importer (import_cycletracking.py)

Like medications, import_cycletracking_csv takes a single parameter
(line 24), guards unconditionally on an existing ledger record, and its
ledger INSERT omits file_hash (lines 120-123). -/

/-- One row of a CycleTracking CSV: Start is parsed with errors=coerce, so
an unparseable value is none and is then dropped with the other two
mandatory cells (import_cycletracking.py lines 62-65). -/
structure CycleRow where
  start : Option Int
  data : Option String
  value : Option String
deriving DecidableEq, Repr

/-- A parsed CycleTracking CSV. -/
structure CycleCsv where
  cols : List String
  rows : List CycleRow
deriving DecidableEq, Repr

/-- The readings built from the cycle rows (import_cycletracking.py lines
72-103): rows missing start, data or value are dropped. -/
def cycleRecords (rows : List CycleRow) : List Reading :=
  rows.filterMap fun r =>
    match r.start, r.data, r.value with
    | some s, some d, some v => some (cycleReading s d v)
    | _, _, _ => none

/-- import_cycletracking_csv (import_cycletracking.py lines 24-155). -/
def import_cycletracking_csv (db : DB) (filename : String)
    (file : FileOnDisk CycleCsv) (now : Int) : Int × DB :=
  if file = .missing then (-1, db)
  else
    if (lookupImport db.imports filename).isSome then (0, db)
    else
      match file with
      | .missing => (-1, db)
      | .unreadable => (-1, db)
      | .parsed csv =>
        if "Start" ∉ csv.cols ∨ "Data" ∉ csv.cols ∨ "Value" ∉ csv.cols then (-1, db)
        else
          let merged := mergeReadings db.readings (cycleRecords csv.rows)
          let added : Int := (merged.length : Int) - (db.readings.length : Int)
          (added,
           { db with readings := merged
                     imports := db.imports ++ [⟨filename, now, added, "cycletracking", none⟩] })

/-! ## Orchestrator (daily_import.py) -/

/-- The mapping get_imported_files builds from the ledger:
filename to nullable hash (daily_import.py lines 66-78). -/
def importedHashes (imports : List ImportRec) : List (String × Option String) :=
  imports.map fun r => (r.filename, r.fileHash)

/-- Dictionary lookup in that mapping. -/
def lookupHash (imported : List (String × Option String)) (name : String) :
    Option (Option String) :=
  (imported.find? fun p => p.1 = name).map Prod.snd

/-- How run_daily_import classifies one discovered file
(daily_import.py lines 111-125). -/
inductive FileClass
  | newFile
  | changed
  | unchanged
deriving DecidableEq, Repr

/-- Classification of a file by name and current content hash against the
ledger mapping (daily_import.py lines 114-125). -/
def classify_file (imported : List (String × Option String)) (name hash : String) :
    FileClass :=
  match lookupHash imported name with
  | none => .newFile
  | some none => .changed
  | some (some h) => if h ≠ hash then .changed else .unchanged

/-- A file discovered by get_csv_files, with its content hash and its parse
under each of the four importer schemas (the importer chosen by the router
decides which view is used). -/
structure SourceFile where
  name : String
  hash : String
  asWide : FileOnDisk WideCsv
  asWorkouts : FileOnDisk WorkoutsCsv
  asMeds : FileOnDisk MedCsv
  asCycle : FileOnDisk CycleCsv
deriving DecidableEq, Repr

/-- The categorisation loop of run_daily_import (daily_import.py lines
106-125): new files, changed files with the recorded reason, and the count
of unchanged (skipped) files, preserving discovery order. -/
def categorizeFiles (imported : List (String × Option String)) :
    List SourceFile → List SourceFile × List (SourceFile × String) × Nat
  | [] => ([], [], 0)
  | f :: fs =>
    let (n, c, u) := categorizeFiles imported fs
    match lookupHash imported f.name with
    | none => (f :: n, c, u)
    | some none => (n, (f, "no_hash") :: c, u)
    | some (some h) => if h ≠ f.hash then (n, (f, "hash_changed") :: c, u) else (n, c, u + 1)

/-- A Python runtime error escaping the orchestrator (nothing in
run_daily_import or import_file catches exceptions). -/
inductive PyError
  | typeError (fn : String)
deriving DecidableEq, Repr

/-- Number of positional parameters each importer accepts, read off the
function definitions:
 import_csv(csv_path, file_hash, is_reimport, source)  (import_healthkit.py line 44),
 import_workouts_csv(csv_path, file_hash, is_reimport) (import_workouts.py line 50),
 import_medications_csv(csv_path)                      (import_medications.py line 19),
 import_cycletracking_csv(csv_path)                    (import_cycletracking.py line 24). -/
def arity_import_csv : Nat := 4

/-- See arity_import_csv. -/
def arity_import_workouts_csv : Nat := 3

/-- See arity_import_csv. -/
def arity_import_medications_csv : Nat := 1

/-- See arity_import_csv. -/
def arity_import_cycletracking_csv : Nat := 1

/-- A Python call passing three positional arguments: it raises TypeError
unless the callee accepts at least three positional parameters. -/
def callWith3 (fn : String) (maxPos : Nat) (result : Int × DB) :
    Except PyError (Int × DB) :=
  if 3 ≤ maxPos then .ok result else .error (.typeError fn)

/-- import_file (daily_import.py lines 194-223): route by filename prefix
and call the importer as import_xxx(csv_file, file_hash, is_reimport). -/
def import_file (db : DB) (f : SourceFile) (isReimport : Bool) (now : Int) :
    Except PyError (Int × DB) :=
  if strStartsWith f.name "Medications-" then
    callWith3 "import_medications_csv" arity_import_medications_csv
      (import_medications_csv db f.name f.asMeds now)
  else if strStartsWith f.name "Workouts-" then
    callWith3 "import_workouts_csv" arity_import_workouts_csv
      (import_workouts_csv db f.name f.asWorkouts (some f.hash) isReimport now)
  else if strStartsWith f.name "CycleTracking-" then
    callWith3 "import_cycletracking_csv" arity_import_cycletracking_csv
      (import_cycletracking_csv db f.name f.asCycle now)
  else if strStartsWith f.name "HealthMetrics-" then
    callWith3 "import_csv" arity_import_csv
      (import_csv db f.name f.asWide (some f.hash) isReimport "healthkit" now)
  else if strStartsWith f.name "HaishanYe_glucose_" then
    .ok (0, db)
  else
    callWith3 "import_csv" arity_import_csv
      (import_csv db f.name f.asWide (some f.hash) isReimport "healthkit" now)

/-- The summary dictionary of run_daily_import. -/
structure Stats where
  total : Nat
  newFound : Nat
  changedFound : Nat
  skipped : Nat
  imported : Nat
  errors : Nat
  rowsAdded : Int
deriving DecidableEq, Repr

/-- The import loop over one batch of files (daily_import.py lines 160-189):
an importer returning a negative count bumps errors, otherwise imported and
rows_added grow; an uncaught exception aborts the whole run. -/
def importLoop (isReimport : Bool) (now : Int) :
    List SourceFile → Stats × DB → Except PyError (Stats × DB)
  | [], acc => .ok acc
  | f :: fs, (stats, db) =>
    match import_file db f isReimport now with
    | .error e => .error e
    | .ok (rows, db') =>
      let stats' :=
        if rows < 0 then { stats with errors := stats.errors + 1 }
        else { stats with imported := stats.imported + 1
                          rowsAdded := stats.rowsAdded + rows }
      importLoop isReimport now fs (stats', db')

/-- run_daily_import (daily_import.py lines 80-191). -/
def run_daily_import (db : DB) (files : List SourceFile) (dryRun : Bool)
    (now : Int) : Except PyError (Stats × DB) :=
  if files.isEmpty then .ok (⟨0, 0, 0, 0, 0, 0, 0⟩, db)
  else
    let imported := importedHashes db.imports
    let (newL, changedL, unchangedCount) := categorizeFiles imported files
    let stats0 : Stats :=
      ⟨files.length, newL.length, changedL.length, unchangedCount, 0, 0, 0⟩
    if newL.isEmpty ∧ changedL.isEmpty then .ok (stats0, db)
    else if dryRun then .ok (stats0, db)
    else
      match importLoop false now newL (stats0, db) with
      | .error e => .error e
      | .ok acc1 => importLoop true now (changedL.map Prod.fst) acc1

/-- The steps main takes after run_daily_import returns
(daily_import.py lines 317-337). -/
inductive MainAction
  | summary
  | validation
  | moveFiles
  | skipMoveNote
deriving DecidableEq, Repr

/-- The tail of main (daily_import.py lines 317-337): print the summary, run
validation unless dry-run with nothing found, move the imported files only
when no error occurred, and exit 1 exactly when errors happened. -/
def mainTail (stats : Stats) (dryRun : Bool) : List MainAction × Int :=
  ([MainAction.summary] ++
   (if ¬ dryRun ∧ (0 < stats.imported ∨ 0 < stats.total) then [MainAction.validation] else []) ++
   (if stats.errors = 0 then [MainAction.moveFiles] else [MainAction.skipMoveNote]),
   if 0 < stats.errors then 1 else 0)

/-- main (daily_import.py lines 301-337): an exception from the run aborts
the process before the summary, validation, move and exit-code steps. -/
def main_model (db : DB) (files : List SourceFile) (dryRun : Bool) (now : Int) :
    Except PyError (List MainAction × Int) :=
  (run_daily_import db files dryRun now).map fun p => mainTail p.1 dryRun

/-! ## Data-quality validator (validate.py) -/

/-- Validation threshold (validate.py line 23). -/
def HEART_RATE_MIN : ℚ := 30

/-- Validation threshold (validate.py line 24). -/
def HEART_RATE_MAX : ℚ := 220

/-- Deviation threshold in bpm from the 7-day average (validate.py line 25). -/
def RESTING_HR_DEVIATION_THRESHOLD : ℚ := 15

/-- Only check recent data for anomalies (validate.py line 26). -/
def ANOMALY_LOOKBACK_DAYS : Int := 30

/-- The metric filter of the range check (validate.py lines 72-74): LIKE
percent Heart Rate percent, NOT LIKE percent Variability percent, NOT LIKE
percent Recovery percent. -/
def isHeartRateFamily (m : String) : Bool :=
  hasSubstr m "Heart Rate" && !(hasSubstr m "Variability") && !(hasSubstr m "Recovery")

/-- The WHERE clause of the range-check query (validate.py lines 72-75). -/
def hrMatch (r : Reading) : Bool :=
  isHeartRateFamily r.metric && (r.value < HEART_RATE_MIN || r.value > HEART_RATE_MAX)

/-- Descending timestamp order of the range-check query. -/
def tsDesc (a b : Reading) : Prop := b.timestamp ≤ a.timestamp

instance : DecidableRel tsDesc := fun a b => Int.decLe b.timestamp a.timestamp

instance : IsTotal Reading tsDesc := ⟨fun a b => (Int.le_total a.timestamp b.timestamp).symm⟩

instance : IsTrans Reading tsDesc := ⟨fun _ _ _ hab hbc => le_trans hbc hab⟩

/-- The range-check query: matching readings, ORDER BY timestamp DESC,
LIMIT 10 (validate.py lines 69-78).  SQL leaves the order of equal
timestamps open; the embedding sorts stably. -/
def hrOutliers (readings : List Reading) : List Reading :=
  ((readings.filter hrMatch).insertionSort tsDesc).take 10

/-- The warning lines validate_heart_rate_range adds, with their numeric
payloads as data (validate.py lines 80-87). -/
inductive HRWarning
  | countLine (n : Nat)
  | detailLine (ts : Int) (metric : String) (value : ℚ)
  | moreLine (n : Nat)
deriving DecidableEq, Repr

/-- validate_heart_rate_range (validate.py lines 64-89): warn with the size
of the retrieved (LIMIT 10) outlier list, show the first 3, and add one
and-N-more line for the rest of the retrieved list. -/
def validate_heart_rate_range (readings : List Reading) : List HRWarning :=
  let outliers := hrOutliers readings
  if outliers.isEmpty then []
  else
    [HRWarning.countLine outliers.length] ++
    (outliers.take 3).map (fun r => HRWarning.detailLine r.timestamp r.metric r.value) ++
    (if 3 < outliers.length then [HRWarning.moreLine (outliers.length - 3)] else [])

/-- One reported resting-heart-rate anomaly (validate.py lines 197-207):
the day, its average, the rolling baseline and the absolute deviation. -/
structure Anomaly where
  date : Int
  dailyAvg : ℚ
  rollingAvg : ℚ
  deviation : ℚ
deriving DecidableEq, Repr

/-- The frame ROWS BETWEEN 7 PRECEDING AND 1 PRECEDING over the value column
at row index i: the last up-to-7 values before i. -/
def rollingWindow (vals : List ℚ) (i : Nat) : List ℚ :=
  (vals.take i).drop (i - 7)

/-- One row of the with_rolling_avg CTE: the indexed per-date row paired
with the windowed AVG over the frame before its row index. -/
def rollingEntry (days : List (Int × ℚ)) (p : Nat × Int × ℚ) :
    Int × ℚ × Option ℚ :=
  (p.2.1, p.2.2, sqlAvg (rollingWindow (days.map Prod.snd) p.1))

/-- The with_rolling_avg CTE (validate.py lines 187-195): each per-date row
of the resting_hr series paired with the windowed AVG, which is NULL exactly
on an empty frame.  The input is the resting_hr CTE output (one row per
calendar date with resting-heart-rate data, carrying the day's AVG(value)),
ordered by date as the window clause prescribes. -/
def withRolling (days : List (Int × ℚ)) : List (Int × ℚ × Option ℚ) :=
  days.enum.map (rollingEntry days)

/-- The outer WHERE of the anomaly query applied to one CTE row
(validate.py lines 197-206): rolling average non-NULL, absolute deviation
above the threshold, date within the lookback window; today stands for
DATE(datetime.now()). -/
def anomalyOf (today : Int) (t : Int × ℚ × Option ℚ) : Option Anomaly :=
  match t.2.2 with
  | none => none
  | some r =>
    if sqlAbs (t.2.1 - r) > RESTING_HR_DEVIATION_THRESHOLD ∧
       t.1 ≥ today - ANOMALY_LOOKBACK_DAYS then
      some ⟨t.1, t.2.1, r, sqlAbs (t.2.1 - r)⟩
    else none

/-- The filtered anomaly rows of the query, in date order. -/
def anomalyRows (days : List (Int × ℚ)) (today : Int) : List Anomaly :=
  (withRolling days).filterMap (anomalyOf today)

/-- detect_resting_hr_anomalies (validate.py lines 171-219): the anomaly
rows ORDER BY date DESC LIMIT 5. -/
def detect_resting_hr_anomalies (days : List (Int × ℚ)) (today : Int) :
    List Anomaly :=
  (anomalyRows days today).reverse.take 5

/-- Eleven out-of-range heart-rate readings at distinct timestamps: one more
than the range-check query's LIMIT 10 retrieves. -/
def hrElevenReadings : List Reading :=
  [⟨0, "Heart Rate", 300, "count", "healthkit"⟩,
   ⟨1, "Heart Rate", 300, "count", "healthkit"⟩,
   ⟨2, "Heart Rate", 300, "count", "healthkit"⟩,
   ⟨3, "Heart Rate", 300, "count", "healthkit"⟩,
   ⟨4, "Heart Rate", 300, "count", "healthkit"⟩,
   ⟨5, "Heart Rate", 300, "count", "healthkit"⟩,
   ⟨6, "Heart Rate", 300, "count", "healthkit"⟩,
   ⟨7, "Heart Rate", 300, "count", "healthkit"⟩,
   ⟨8, "Heart Rate", 300, "count", "healthkit"⟩,
   ⟨9, "Heart Rate", 300, "count", "healthkit"⟩,
   ⟨10, "Heart Rate", 300, "count", "healthkit"⟩]

/-- The match result of the declarative split: the engine name (shortest
name plus following whitespace excluded) and the unit group, at the least
valid index. -/
def specResult (s : List Char) : Option (List Char × List Char) :=
  match specSplitIdx s with
  | some j => some (s.take (nameBound s j), (unitGroup (s.drop (j + 1))).getD [])
  | none => none

/-! ## Claim theorems -/

lemma mergeBy_cons {α β : Type} [DecidableEq β] (key : α → β)
    (table : List α) (r : α) (rs : List α) :
    mergeBy key table (r :: rs) = mergeBy key (insertIfAbsent key table r) rs := rfl

/-- The merged table is the old table followed by some of the incoming
records, each of whose keys was absent from the old table: nothing is ever
removed or overwritten, and key collisions are dropped. -/
lemma mergeBy_eq_append {α β : Type} [DecidableEq β] (key : α → β) :
    ∀ (rs table : List α), ∃ added,
      mergeBy key table rs = table ++ added ∧
      ∀ a ∈ added, a ∈ rs ∧ key a ∉ table.map key := by
  intro rs
  induction rs with
  | nil =>
      intro table
      exact ⟨[], by simp [mergeBy], by simp⟩
  | cons r rs ih =>
      intro table
      rw [mergeBy_cons]
      unfold insertIfAbsent
      by_cases hmem : table.any (fun x => key x = key r)
      · rw [if_pos hmem]
        obtain ⟨added, heq, hprop⟩ := ih table
        exact ⟨added, heq, fun a ha => ⟨List.mem_cons_of_mem r (hprop a ha).1,
          (hprop a ha).2⟩⟩
      · rw [if_neg hmem]
        obtain ⟨added, heq, hprop⟩ := ih (table ++ [r])
        refine ⟨r :: added, by simpa using heq, ?_⟩
        have hrkey : key r ∉ table.map key := by
          intro hk
          apply hmem
          rw [List.any_eq_true]
          obtain ⟨x, hx, hkx⟩ := List.mem_map.mp hk
          exact ⟨x, hx, by simp [hkx]⟩
        intro a ha
        rcases List.mem_cons.mp ha with h | h
        · exact ⟨by simp [h], h ▸ hrkey⟩
        · refine ⟨List.mem_cons_of_mem r (hprop a h).1, ?_⟩
          intro hk
          exact (hprop a h).2 (by simpa using Or.inl hk)

/-- Stored keys survive a merge. -/
lemma key_mem_mergeBy_of_mem {α β : Type} [DecidableEq β] (key : α → β)
    (rs table : List α) (b : β) (hb : b ∈ table.map key) :
    b ∈ (mergeBy key table rs).map key := by
  obtain ⟨added, heq, -⟩ := mergeBy_eq_append key rs table
  rw [heq, List.map_append]
  exact List.mem_append_left _ hb

/-- After a merge, the key of every incoming record is present in the table
(it was either inserted or already there). -/
lemma key_mem_mergeBy {α β : Type} [DecidableEq β] (key : α → β) :
    ∀ (rs table : List α) (r : α), r ∈ rs →
      key r ∈ (mergeBy key table rs).map key := by
  intro rs
  induction rs with
  | nil => intro table r hr; cases hr
  | cons s rs ih =>
      intro table r hr
      rw [mergeBy_cons]
      rcases List.mem_cons.mp hr with h | h
      · subst h
        apply key_mem_mergeBy_of_mem
        unfold insertIfAbsent
        by_cases hmem : table.any (fun x => key x = key r)
        · rw [if_pos hmem]
          rw [List.any_eq_true] at hmem
          obtain ⟨x, hx, hkx⟩ := hmem
          simp only [decide_eq_true_eq] at hkx
          exact hkx ▸ List.mem_map_of_mem key hx
        · rw [if_neg hmem, List.map_append]
          simp
      · exact ih _ r h

/-- Merging records whose keys are all already stored is a no-op. -/
lemma mergeBy_of_keys_present {α β : Type} [DecidableEq β] (key : α → β) :
    ∀ (rs table : List α), (∀ r ∈ rs, key r ∈ table.map key) →
      mergeBy key table rs = table := by
  intro rs
  induction rs with
  | nil => intro table _; rfl
  | cons r rs ih =>
      intro table hall
      rw [mergeBy_cons]
      have hr : key r ∈ table.map key := hall r (by simp)
      have hany : table.any (fun x => key x = key r) = true := by
        rw [List.any_eq_true]
        obtain ⟨x, hx, hkx⟩ := List.mem_map.mp hr
        exact ⟨x, hx, by simp [hkx]⟩
      unfold insertIfAbsent
      rw [if_pos hany]
      exact ih table fun s hs => hall s (List.mem_cons_of_mem r hs)

/-- Merging the same record set a second time changes nothing. -/
lemma mergeBy_idem {α β : Type} [DecidableEq β] (key : α → β)
    (table rs : List α) :
    mergeBy key (mergeBy key table rs) rs = mergeBy key table rs :=
  mergeBy_of_keys_present key rs _ fun r hr => key_mem_mergeBy key rs table r hr


/-- On a parsed file, import_csv either fails with (-1, db) or returns
exactly the readings-table size delta. -/
lemma import_csv_result_cases (db : DB) (filename : String) (csv : WideCsv)
    (fh : Option String) (ri : Bool) (src : String) (now : Int) :
    import_csv db filename (.parsed csv) fh ri src now = (-1, db) ∨
    (import_csv db filename (.parsed csv) fh ri src now).1 =
      ((import_csv db filename (.parsed csv) fh ri src now).2.readings.length : Int) -
        (db.readings.length : Int) := by
  unfold import_csv
  by_cases hguard : (lookupImport db.imports filename).isSome ∧ ¬ ri
  · right
    simp [hguard]
  · have hguard2 : ¬((lookupImport db.imports filename).isSome = true ∧ ri = false) := by
      intro hc
      exact hguard ⟨hc.1, by simp [hc.2]⟩
    by_cases hcol : "Date/Time" ∈ csv.cols
    · right
      simp [hguard2, hcol]
    · left
      simp [hguard2, hcol]

/-- Claim C2: the merge step is insert-if-absent and idempotent.  For every
record set merged into the readings table: the stored table is preserved as
a prefix and only incoming records whose (timestamp, metric, source) key was
absent are appended (a record whose key already exists is silently dropped,
never overwritten and never an error); after the merge every incoming key is
present; import_csv returns the table size after minus before; and merging
the same record set a second time adds zero rows. -/
theorem merge_is_insert_if_absent_and_idempotent (table rs : List Reading)
    (db : DB) (filename : String) (csv : WideCsv) (fh : Option String)
    (ri : Bool) (src : String) (now : Int) :
    (∃ added, mergeReadings table rs = table ++ added ∧
      ∀ a ∈ added, a ∈ rs ∧ readingKey a ∉ table.map readingKey) ∧
    (∀ r ∈ rs, readingKey r ∈ (mergeReadings table rs).map readingKey) ∧
    mergeReadings (mergeReadings table rs) rs = mergeReadings table rs ∧
    ((mergeReadings (mergeReadings table rs) rs).length : Int) -
      ((mergeReadings table rs).length : Int) = 0 ∧
    (0 ≤ (import_csv db filename (.parsed csv) fh ri src now).1 →
      (import_csv db filename (.parsed csv) fh ri src now).1 =
        ((import_csv db filename (.parsed csv) fh ri src now).2.readings.length : Int) -
          (db.readings.length : Int)) := by
  have hid : mergeReadings (mergeReadings table rs) rs = mergeReadings table rs :=
    mergeBy_idem readingKey table rs
  refine ⟨mergeBy_eq_append readingKey rs table,
          fun r hr => key_mem_mergeBy readingKey rs table r hr,
          hid, by rw [hid]; exact sub_self _, ?_⟩
  intro hpos
  rcases import_csv_result_cases db filename csv fh ri src now with herr | hdelta
  · rw [herr] at hpos
    norm_num at hpos
  · exact hdelta

/-- Witness for C2 at a concrete table and record set: re-merging the pair
changes nothing, and a successful concrete import_csv run returns the size
delta of the readings table. -/
theorem merge_is_insert_if_absent_and_idempotent_witness :
    mergeReadings
        (mergeReadings [⟨0, "Resting Heart Rate", 60, "bpm", "healthkit"⟩]
          [⟨0, "Resting Heart Rate", 60, "bpm", "healthkit"⟩,
           ⟨1, "Resting Heart Rate", 62, "bpm", "healthkit"⟩])
        [⟨0, "Resting Heart Rate", 60, "bpm", "healthkit"⟩,
         ⟨1, "Resting Heart Rate", 62, "bpm", "healthkit"⟩] =
      mergeReadings [⟨0, "Resting Heart Rate", 60, "bpm", "healthkit"⟩]
        [⟨0, "Resting Heart Rate", 60, "bpm", "healthkit"⟩,
         ⟨1, "Resting Heart Rate", 62, "bpm", "healthkit"⟩] ∧
    0 ≤ (import_csv ⟨[], [], [], []⟩ "HealthMetrics-x.csv"
          (.parsed ⟨["Date/Time", "Resting Heart Rate"],
            [⟨0, [("Resting Heart Rate", some 60)]⟩]⟩) (some "h") false
          "healthkit" 7).1 ∧
    (import_csv ⟨[], [], [], []⟩ "HealthMetrics-x.csv"
        (.parsed ⟨["Date/Time", "Resting Heart Rate"],
          [⟨0, [("Resting Heart Rate", some 60)]⟩]⟩) (some "h") false
        "healthkit" 7).1 =
      ((import_csv ⟨[], [], [], []⟩ "HealthMetrics-x.csv"
          (.parsed ⟨["Date/Time", "Resting Heart Rate"],
            [⟨0, [("Resting Heart Rate", some 60)]⟩]⟩) (some "h") false
          "healthkit" 7).2.readings.length : Int) -
        ((⟨[], [], [], []⟩ : DB).readings.length : Int) := by
  refine ⟨(merge_is_insert_if_absent_and_idempotent
      [⟨0, "Resting Heart Rate", 60, "bpm", "healthkit"⟩]
      [⟨0, "Resting Heart Rate", 60, "bpm", "healthkit"⟩,
       ⟨1, "Resting Heart Rate", 62, "bpm", "healthkit"⟩]
      ⟨[], [], [], []⟩ "HealthMetrics-x.csv"
      ⟨["Date/Time", "Resting Heart Rate"], [⟨0, [("Resting Heart Rate", some 60)]⟩]⟩
      (some "h") false "healthkit" 7).2.2.1, ?_, ?_⟩
  · decide
  · exact (merge_is_insert_if_absent_and_idempotent
      [⟨0, "Resting Heart Rate", 60, "bpm", "healthkit"⟩]
      [⟨0, "Resting Heart Rate", 60, "bpm", "healthkit"⟩,
       ⟨1, "Resting Heart Rate", 62, "bpm", "healthkit"⟩]
      ⟨[], [], [], []⟩ "HealthMetrics-x.csv"
      ⟨["Date/Time", "Resting Heart Rate"], [⟨0, [("Resting Heart Rate", some 60)]⟩]⟩
      (some "h") false "healthkit" 7).2.2.2.2 (by decide)

/-- Claim C10: for every file whose filename already has a ledger record,
calling an importer with is_reimport=False returns 0 and leaves the database
(fact tables and imports table) unchanged, for every file content other than
a missing path (the guard runs before any CSV read or merge, so the result
does not depend on the content), making a direct second invocation on an
already-imported file a no-op.  The medications importer has no is_reimport
parameter at all; its guard is unconditional. -/
theorem already_imported_guard_noop (db : DB) (name : String)
    (wf : FileOnDisk WideCsv) (wo : FileOnDisk WorkoutsCsv)
    (mf : FileOnDisk MedCsv) (fh fh2 : Option String) (src : String)
    (now now2 now3 : Int)
    (hrec : (lookupImport db.imports name).isSome = true)
    (hwf : wf ≠ .missing) (hwo : wo ≠ .missing) (hmf : mf ≠ .missing) :
    import_csv db name wf fh false src now = (0, db) ∧
    import_workouts_csv db name wo fh2 false now2 = (0, db) ∧
    import_medications_csv db name mf now3 = (0, db) := by
  refine ⟨?_, ?_, ?_⟩
  · cases wf with
    | missing => exact absurd rfl hwf
    | unreadable => simp [import_csv, hrec]
    | parsed csv => simp [import_csv, hrec]
  · cases wo with
    | missing => exact absurd rfl hwo
    | unreadable => simp [import_workouts_csv, hrec]
    | parsed csv => simp [import_workouts_csv, hrec]
  · cases mf with
    | missing => exact absurd rfl hmf
    | unreadable => simp [import_medications_csv, hrec]
    | parsed csv => simp [import_medications_csv, hrec]

/-- Witness for C10: on a database whose ledger already records the
filename, each importer returns 0 and leaves the database unchanged. -/
theorem already_imported_guard_noop_witness :
    import_csv ⟨[], [], [], [⟨"f.csv", 0, 5, "healthkit", some "h"⟩]⟩ "f.csv"
        (.parsed ⟨["Date/Time"], []⟩) (some "h2") false "healthkit" 9 =
      (0, ⟨[], [], [], [⟨"f.csv", 0, 5, "healthkit", some "h"⟩]⟩) ∧
    import_workouts_csv ⟨[], [], [], [⟨"f.csv", 0, 5, "healthkit", some "h"⟩]⟩
        "f.csv" (.parsed ⟨["Type", "Start"], []⟩) (some "h2") false 9 =
      (0, ⟨[], [], [], [⟨"f.csv", 0, 5, "healthkit", some "h"⟩]⟩) ∧
    import_medications_csv ⟨[], [], [], [⟨"f.csv", 0, 5, "healthkit", some "h"⟩]⟩
        "f.csv" (.parsed ⟨["Date", "Medication"], []⟩) 9 =
      (0, ⟨[], [], [], [⟨"f.csv", 0, 5, "healthkit", some "h"⟩]⟩) :=
  already_imported_guard_noop
    ⟨[], [], [], [⟨"f.csv", 0, 5, "healthkit", some "h"⟩]⟩ "f.csv"
    (.parsed ⟨["Date/Time"], []⟩) (.parsed ⟨["Type", "Start"], []⟩)
    (.parsed ⟨["Date", "Medication"], []⟩) (some "h2") (some "h2") "healthkit"
    9 9 9 (by decide) (by decide) (by decide) (by decide)

/-- Appending a fresh ledger row: when the filename was absent, the lookup
finds exactly the appended row. -/
lemma lookupImport_append_singleton (l : List ImportRec) (r : ImportRec)
    (name : String) (hl : lookupImport l name = none) :
    lookupImport (l ++ [r]) name = if r.filename = name then some r else none := by
  unfold lookupImport at *
  rw [List.find?_append, hl]
  by_cases hr : r.filename = name
  · simp [List.find?, hr]
  · simp [List.find?, hr]

/-- The ledger mapping used by the orchestrator agrees with ledger lookup. -/
lemma lookupHash_importedHashes (l : List ImportRec) (name : String) :
    lookupHash (importedHashes l) name =
      (lookupImport l name).map ImportRec.fileHash := by
  induction l with
  | nil => simp [lookupHash, importedHashes, lookupImport]
  | cons r rs ih =>
      by_cases hr : r.filename = name
      · simp [lookupHash, importedHashes, lookupImport, List.find?, hr]
      · simp only [lookupHash, importedHashes, List.map_cons, List.find?,
          lookupImport] at ih ⊢
        rw [show (decide (r.filename = name) = false) from by simp [hr]]
        simpa [lookupHash, importedHashes, lookupImport] using ih

/-- A successful first-time medications import appends exactly one ledger
row, carrying a null hash (its INSERT names no file_hash column). -/
lemma import_medications_success_shape (db : DB) (name : String) (mf : MedCsv)
    (now : Int) (hfresh : lookupImport db.imports name = none)
    (hpos : 0 ≤ (import_medications_csv db name (.parsed mf) now).1) :
    ∃ added, (import_medications_csv db name (.parsed mf) now).2.imports =
      db.imports ++ [⟨name, now, added, "medications", none⟩] := by
  unfold import_medications_csv at hpos ⊢
  by_cases hdate : "Date" ∈ mf.cols
  · by_cases hmed : "Medication" ∈ mf.cols
    · exact ⟨((mergeMedications db.medications (medRecords mf)).length : Int) -
        (db.medications.length : Int), by simp [hfresh, hdate, hmed]⟩
    · exfalso
      simp [hfresh, hdate, hmed] at hpos
  · exfalso
    simp [hfresh, hdate] at hpos

/-- A successful first-time cycle-tracking import appends exactly one ledger
row, carrying a null hash (its INSERT names no file_hash column). -/
lemma import_cycletracking_success_shape (db : DB) (name : String)
    (cf : CycleCsv) (now : Int) (hfresh : lookupImport db.imports name = none)
    (hpos : 0 ≤ (import_cycletracking_csv db name (.parsed cf) now).1) :
    ∃ added, (import_cycletracking_csv db name (.parsed cf) now).2.imports =
      db.imports ++ [⟨name, now, added, "cycletracking", none⟩] := by
  unfold import_cycletracking_csv at hpos ⊢
  by_cases hstart : "Start" ∈ cf.cols
  · by_cases hdata : "Data" ∈ cf.cols
    · by_cases hval : "Value" ∈ cf.cols
      · exact ⟨((mergeReadings db.readings (cycleRecords cf.rows)).length : Int) -
          (db.readings.length : Int), by simp [hfresh, hstart, hdata, hval]⟩
      · exfalso
        simp [hfresh, hstart, hdata, hval] at hpos
    · exfalso
      simp [hfresh, hstart, hdata] at hpos
  · exfalso
    simp [hfresh, hstart] at hpos

/-- A ledger whose record for the file has a null stored hash classifies the
file as changed — never unchanged — for every current hash. -/
lemma classify_of_null_hash (imports : List ImportRec) (name : String)
    (rec : ImportRec) (hrec : lookupImport imports name = some rec)
    (hnull : rec.fileHash = none) (h : String) :
    classify_file (importedHashes imports) name h = .changed ∧
    classify_file (importedHashes imports) name h ≠ .unchanged := by
  have hlh : lookupHash (importedHashes imports) name = some none := by
    rw [lookupHash_importedHashes, hrec]
    simp [hnull]
  refine ⟨?_, ?_⟩
  · unfold classify_file
    rw [hlh]
  · unfold classify_file
    rw [hlh]
    simp

/-- Claim C9: every ledger record created by a successful first-time
medications or cycle-tracking import has a null content hash (their imports
INSERTs omit file_hash), so on every subsequent run the orchestrator
classifies the file as changed (the legacy null-hash branch) and never as
unchanged, regardless of its current content hash. -/
theorem med_cycle_ledger_null_hash_always_changed (db : DB) (name : String)
    (mf : MedCsv) (cf : CycleCsv) (nowm nowc : Int)
    (hfresh : lookupImport db.imports name = none) :
    (0 ≤ (import_medications_csv db name (.parsed mf) nowm).1 →
      ∃ rec, lookupImport (import_medications_csv db name (.parsed mf) nowm).2.imports name
          = some rec ∧ rec.fileHash = none ∧
        ∀ h : String,
          classify_file
              (importedHashes (import_medications_csv db name (.parsed mf) nowm).2.imports)
              name h = .changed ∧
          classify_file
              (importedHashes (import_medications_csv db name (.parsed mf) nowm).2.imports)
              name h ≠ .unchanged) ∧
    (0 ≤ (import_cycletracking_csv db name (.parsed cf) nowc).1 →
      ∃ rec, lookupImport (import_cycletracking_csv db name (.parsed cf) nowc).2.imports name
          = some rec ∧ rec.fileHash = none ∧
        ∀ h : String,
          classify_file
              (importedHashes (import_cycletracking_csv db name (.parsed cf) nowc).2.imports)
              name h = .changed ∧
          classify_file
              (importedHashes (import_cycletracking_csv db name (.parsed cf) nowc).2.imports)
              name h ≠ .unchanged) := by
  constructor
  · intro hpos
    obtain ⟨added, heq⟩ := import_medications_success_shape db name mf nowm hfresh hpos
    have hlook : lookupImport (import_medications_csv db name (.parsed mf) nowm).2.imports name
        = some ⟨name, nowm, added, "medications", none⟩ := by
      rw [heq, lookupImport_append_singleton db.imports _ name hfresh]
      simp
    exact ⟨_, hlook, rfl, fun h => classify_of_null_hash _ name _ hlook rfl h⟩
  · intro hpos
    obtain ⟨added, heq⟩ := import_cycletracking_success_shape db name cf nowc hfresh hpos
    have hlook : lookupImport (import_cycletracking_csv db name (.parsed cf) nowc).2.imports name
        = some ⟨name, nowc, added, "cycletracking", none⟩ := by
      rw [heq, lookupImport_append_singleton db.imports _ name hfresh]
      simp
    exact ⟨_, hlook, rfl, fun h => classify_of_null_hash _ name _ hlook rfl h⟩

/-- Witness for C9: a concrete empty-database medications and a cycle-tracking
run each leave a null-hash ledger record classified as changed. -/
theorem med_cycle_ledger_null_hash_always_changed_witness :
    (∃ rec, lookupImport (import_medications_csv ⟨[], [], [], []⟩ "Medications-1.csv"
          (.parsed ⟨["Date", "Medication"], []⟩) 4).2.imports "Medications-1.csv"
        = some rec ∧ rec.fileHash = none ∧
      ∀ h : String,
        classify_file
            (importedHashes (import_medications_csv ⟨[], [], [], []⟩ "Medications-1.csv"
              (.parsed ⟨["Date", "Medication"], []⟩) 4).2.imports)
            "Medications-1.csv" h = .changed ∧
        classify_file
            (importedHashes (import_medications_csv ⟨[], [], [], []⟩ "Medications-1.csv"
              (.parsed ⟨["Date", "Medication"], []⟩) 4).2.imports)
            "Medications-1.csv" h ≠ .unchanged) ∧
    (∃ rec, lookupImport (import_cycletracking_csv ⟨[], [], [], []⟩ "CycleTracking-1.csv"
          (.parsed ⟨["Start", "Data", "Value"], []⟩) 4).2.imports "CycleTracking-1.csv"
        = some rec ∧ rec.fileHash = none ∧
      ∀ h : String,
        classify_file
            (importedHashes (import_cycletracking_csv ⟨[], [], [], []⟩ "CycleTracking-1.csv"
              (.parsed ⟨["Start", "Data", "Value"], []⟩) 4).2.imports)
            "CycleTracking-1.csv" h = .changed ∧
        classify_file
            (importedHashes (import_cycletracking_csv ⟨[], [], [], []⟩ "CycleTracking-1.csv"
              (.parsed ⟨["Start", "Data", "Value"], []⟩) 4).2.imports)
            "CycleTracking-1.csv" h ≠ .unchanged) :=
  ⟨(med_cycle_ledger_null_hash_always_changed ⟨[], [], [], []⟩ "Medications-1.csv"
      ⟨["Date", "Medication"], []⟩ ⟨["Start", "Data", "Value"], []⟩ 4 4
      (by decide)).1 (by decide),
   (med_cycle_ledger_null_hash_always_changed ⟨[], [], [], []⟩ "CycleTracking-1.csv"
      ⟨["Date", "Medication"], []⟩ ⟨["Start", "Data", "Value"], []⟩ 4 4
      (by decide)).2 (by decide)⟩

/-- A file classified unchanged lands in neither batch of the categorisation
loop, so the import loops (which run only over those two batches) never
touch it. -/
lemma unchanged_not_categorized (imported : List (String × Option String)) :
    ∀ (files : List SourceFile) (f : SourceFile),
      classify_file imported f.name f.hash = .unchanged →
      f ∉ (categorizeFiles imported files).1 ∧
      ∀ reason, (f, reason) ∉ (categorizeFiles imported files).2.1 := by
  intro files
  induction files with
  | nil =>
      intro f _
      simp [categorizeFiles]
  | cons g fs ih =>
      intro f hf
      obtain ⟨ih1, ih2⟩ := ih f hf
      unfold categorizeFiles
      rcases hcat : categorizeFiles imported fs with ⟨n, c, u⟩
      rw [hcat] at ih1 ih2
      cases hl : lookupHash imported g.name with
      | none =>
          refine ⟨?_, ?_⟩
          · intro hmem
            rcases List.mem_cons.mp hmem with hfg | hmem2
            · subst hfg
              unfold classify_file at hf
              rw [hl] at hf
              cases hf
            · exact ih1 hmem2
          · intro reason hmem
            exact ih2 reason hmem
      | some stored =>
          cases stored with
          | none =>
              refine ⟨fun hmem => ih1 hmem, ?_⟩
              intro reason hmem
              rcases List.mem_cons.mp hmem with hfg | hmem2
              · have hfg' : f = g := congrArg Prod.fst hfg
                subst hfg'
                unfold classify_file at hf
                rw [hl] at hf
                cases hf
              · exact ih2 reason hmem2
          | some hstored =>
              dsimp only
              by_cases hne : hstored ≠ g.hash
              · rw [if_pos hne]
                refine ⟨fun hmem => ih1 hmem, ?_⟩
                intro reason hmem
                rcases List.mem_cons.mp hmem with hfg | hmem2
                · have hfg' : f = g := congrArg Prod.fst hfg
                  subst hfg'
                  simp [classify_file, hl, hne] at hf
                · exact ih2 reason hmem2
              · rw [if_neg hne]
                exact ⟨ih1, ih2⟩

/-- Claim C1: the orchestrator classifies each discovered file against the
ledger: new iff no import record with its filename exists; changed iff a
record exists and its stored hash is null or differs from the current
content hash; unchanged iff the stored hash equals the current hash — and
an unchanged file enters neither the new nor the changed batch, so neither
importing loop ever normalizes or merges it or touches its ledger row. -/
theorem classification_matches_ledger (imported : List (String × Option String))
    (name hash : String) (files : List SourceFile) :
    (classify_file imported name hash = .newFile ↔ lookupHash imported name = none) ∧
    (classify_file imported name hash = .changed ↔
      ∃ stored, lookupHash imported name = some stored ∧
        (stored = none ∨ stored ≠ some hash)) ∧
    (classify_file imported name hash = .unchanged ↔
      lookupHash imported name = some (some hash)) ∧
    (∀ f ∈ files, classify_file imported f.name f.hash = .unchanged →
      f ∉ (categorizeFiles imported files).1 ∧
      ∀ reason, (f, reason) ∉ (categorizeFiles imported files).2.1) := by
  refine ⟨?_, ?_, ?_, fun f _ hf => unchanged_not_categorized imported files f hf⟩
  · cases hb : lookupHash imported name with
    | none => simp [classify_file, hb]
    | some stored =>
        cases stored with
        | none => simp [classify_file, hb]
        | some hst =>
            by_cases heq : hst = hash
            · simp [classify_file, hb, heq]
            · simp [classify_file, hb, heq]
  · cases hb : lookupHash imported name with
    | none => simp [classify_file, hb]
    | some stored =>
        cases stored with
        | none => simp [classify_file, hb]
        | some hst =>
            by_cases heq : hst = hash
            · simp [classify_file, hb, heq]
            · simp [classify_file, hb, heq]
  · cases hb : lookupHash imported name with
    | none => simp [classify_file, hb]
    | some stored =>
        cases stored with
        | none => simp [classify_file, hb]
        | some hst =>
            by_cases heq : hst = hash
            · simp [classify_file, hb, heq]
            · simp [classify_file, hb, heq]

/-- Witness for C1 at a one-record ledger: the stored hash matches, the file
is unchanged and both batches of the categorisation are empty. -/
theorem classification_matches_ledger_witness :
    classify_file [("a.csv", some "h1")] "a.csv" "h1" = .unchanged ∧
    lookupHash [("a.csv", some "h1")] "a.csv" = some (some "h1") ∧
    (⟨"a.csv", "h1", .unreadable, .unreadable, .unreadable, .unreadable⟩ : SourceFile) ∉
      (categorizeFiles [("a.csv", some "h1")]
        [⟨"a.csv", "h1", .unreadable, .unreadable, .unreadable, .unreadable⟩]).1 ∧
    ∀ reason,
      ((⟨"a.csv", "h1", .unreadable, .unreadable, .unreadable, .unreadable⟩ : SourceFile), reason) ∉
        (categorizeFiles [("a.csv", some "h1")]
          [⟨"a.csv", "h1", .unreadable, .unreadable, .unreadable, .unreadable⟩]).2.1 := by
  have hmain := classification_matches_ledger [("a.csv", some "h1")] "a.csv" "h1"
    [⟨"a.csv", "h1", .unreadable, .unreadable, .unreadable, .unreadable⟩]
  have hcls : classify_file [("a.csv", some "h1")] "a.csv" "h1" = .unchanged := by decide
  have hskip := hmain.2.2.2 ⟨"a.csv", "h1", .unreadable, .unreadable, .unreadable, .unreadable⟩
    (by decide) hcls
  exact ⟨hcls, hmain.2.2.1.mp hcls, hskip.1, hskip.2⟩

/-- Claim C8: the post-run relocation of source files into the imported
sub-area happens iff the run's error count is zero: main reaches the
move step exactly when errors = 0 and otherwise only prints the skip note,
for dry and real runs alike; lifted through main_model, every completed run
moves files iff its stats carry no error. -/
theorem move_skipped_iff_errors (stats : Stats) (dryRun : Bool) (db : DB)
    (files : List SourceFile) (now : Int) :
    (MainAction.moveFiles ∈ (mainTail stats dryRun).1 ↔ stats.errors = 0) ∧
    (MainAction.skipMoveNote ∈ (mainTail stats dryRun).1 ↔ stats.errors ≠ 0) ∧
    (∀ acts code, main_model db files dryRun now = .ok (acts, code) →
      ∃ stats2 db2, run_daily_import db files dryRun now = .ok (stats2, db2) ∧
        (MainAction.moveFiles ∈ acts ↔ stats2.errors = 0)) := by
  have hmt : ∀ s : Stats, (MainAction.moveFiles ∈ (mainTail s dryRun).1 ↔ s.errors = 0) := by
    intro s
    by_cases herr : s.errors = 0
    · simp [mainTail, herr]
    · simp [mainTail, herr]
  refine ⟨hmt stats, ?_, ?_⟩
  · by_cases herr : stats.errors = 0
    · simp [mainTail, herr]
    · simp [mainTail, herr]
  · intro acts code h
    cases hrun : run_daily_import db files dryRun now with
    | error e =>
        rw [main_model, hrun] at h
        cases h
    | ok p =>
        rw [main_model, hrun] at h
        refine ⟨p.1, p.2, by rw [← hrun], ?_⟩
        have hacts : acts = (mainTail p.1 dryRun).1 := by
          cases h
          rfl
        rw [hacts]
        exact hmt p.1

/-- Witness for C8: with one error the move step is skipped for the note;
with zero errors the move step runs. -/
theorem move_skipped_iff_errors_witness :
    (MainAction.moveFiles ∈ (mainTail ⟨2, 1, 0, 1, 0, 1, 0⟩ false).1 ↔
      (⟨2, 1, 0, 1, 0, 1, 0⟩ : Stats).errors = 0) ∧
    MainAction.skipMoveNote ∈ (mainTail ⟨2, 1, 0, 1, 0, 1, 0⟩ false).1 ∧
    MainAction.moveFiles ∈ (mainTail ⟨2, 1, 0, 1, 1, 0, 3⟩ false).1 :=
  ⟨(move_skipped_iff_errors ⟨2, 1, 0, 1, 0, 1, 0⟩ false ⟨[], [], [], []⟩ [] 0).1,
   (move_skipped_iff_errors ⟨2, 1, 0, 1, 0, 1, 0⟩ false ⟨[], [], [], []⟩ [] 0).2.1.mpr
     (by decide),
   (move_skipped_iff_errors ⟨2, 1, 0, 1, 1, 0, 3⟩ false ⟨[], [], [], []⟩ [] 0).1.mpr
     (by decide)⟩

/-- Claim C3 is contradicted by the code: import_file calls
 import_medications_csv(csv_file, file_hash, is_reimport) with three
positional arguments while the function accepts one, so a run containing a
Medications- (or CycleTracking-) file dies with an uncaught TypeError
instead of counting an error and continuing; the remaining files are never
processed and main never reaches its summary, validation, move and
exit-code steps.  Evaluated here on a two-file run whose first file is a
Medications- export and whose second is a well-formed HealthMetrics- export:
the run and main abort with the TypeError, and no summary step is ever
produced. -/
theorem medications_file_aborts_whole_run :
    run_daily_import ⟨[], [], [], []⟩
        [⟨"Medications-2026-02-06.csv", "h1", .unreadable, .unreadable,
          .parsed ⟨["Date", "Medication"], []⟩, .unreadable⟩,
         ⟨"HealthMetrics-2026-02-06.csv", "h2",
          .parsed ⟨["Date/Time", "Resting Heart Rate"],
            [⟨0, [("Resting Heart Rate", some 60)]⟩]⟩,
          .unreadable, .unreadable, .unreadable⟩] false 0 =
      .error (.typeError "import_medications_csv") ∧
    main_model ⟨[], [], [], []⟩
        [⟨"Medications-2026-02-06.csv", "h1", .unreadable, .unreadable,
          .parsed ⟨["Date", "Medication"], []⟩, .unreadable⟩,
         ⟨"HealthMetrics-2026-02-06.csv", "h2",
          .parsed ⟨["Date/Time", "Resting Heart Rate"],
            [⟨0, [("Resting Heart Rate", some 60)]⟩]⟩,
          .unreadable, .unreadable, .unreadable⟩] false 0 =
      .error (.typeError "import_medications_csv") ∧
    ∀ acts code,
      main_model ⟨[], [], [], []⟩
          [⟨"Medications-2026-02-06.csv", "h1", .unreadable, .unreadable,
            .parsed ⟨["Date", "Medication"], []⟩, .unreadable⟩,
           ⟨"HealthMetrics-2026-02-06.csv", "h2",
            .parsed ⟨["Date/Time", "Resting Heart Rate"],
              [⟨0, [("Resting Heart Rate", some 60)]⟩]⟩,
            .unreadable, .unreadable, .unreadable⟩] false 0 ≠
        .ok (acts, code) := by
  refine ⟨by rfl, by rfl, ?_⟩
  intro acts code h
  rw [show main_model ⟨[], [], [], []⟩
      [⟨"Medications-2026-02-06.csv", "h1", .unreadable, .unreadable,
        .parsed ⟨["Date", "Medication"], []⟩, .unreadable⟩,
       ⟨"HealthMetrics-2026-02-06.csv", "h2",
        .parsed ⟨["Date/Time", "Resting Heart Rate"],
          [⟨0, [("Resting Heart Rate", some 60)]⟩]⟩,
        .unreadable, .unreadable, .unreadable⟩] false 0 =
      .error (.typeError "import_medications_csv") from by rfl] at h
  cases h

/-- Claim C6: for every cycle-tracking row, the original Value string is
stored verbatim in the unit field in every case, and a non-numeric Value is
mapped through the fixed table (Unspecified, None and No to 0; Light and Yes
to 1; Medium to 2; Heavy to 3) with every string outside the table mapped to
0; in particular Heavy yields 3.0 and the unknown label Spotting yields 0.0
with the label preserved. -/
theorem cycle_value_encoding (start : Int) (data v : String) :
    (cycleReading start data v).unit = v ∧
    (pyFloatAccepts v = false →
      (cycleReading start data v).value = cycleCategoryScalar v) ∧
    cycleCategoryScalar "Unspecified" = 0 ∧
    cycleCategoryScalar "None" = 0 ∧
    cycleCategoryScalar "No" = 0 ∧
    cycleCategoryScalar "Light" = 1 ∧
    cycleCategoryScalar "Yes" = 1 ∧
    cycleCategoryScalar "Medium" = 2 ∧
    cycleCategoryScalar "Heavy" = 3 ∧
    (v ∉ ["Unspecified", "Light", "Medium", "Heavy", "None", "Yes", "No"] →
      cycleCategoryScalar v = 0) ∧
    (cycleReading start data "Heavy").value = 3 ∧
    (cycleReading start data "Spotting").value = 0 ∧
    (cycleReading start data "Spotting").unit = "Spotting" := by
  refine ⟨rfl, ?_, by decide, by decide, by decide, by decide, by decide,
    by decide, by decide, ?_,
    by show cycleNumericValue "Heavy" = 3; decide,
    by show cycleNumericValue "Spotting" = 0; decide, rfl⟩
  · intro hnum
    show cycleNumericValue v = cycleCategoryScalar v
    unfold cycleNumericValue
    rw [hnum]
    simp
  · intro hmem
    simp only [List.mem_cons, List.not_mem_nil, or_false, not_or] at hmem
    obtain ⟨h1, h2, h3, h4, h5, h6, h7⟩ := hmem
    simp [cycleCategoryScalar, h1, h2, h3, h4, h5, h6, h7]

/-- Witness for C6 at the unknown label Spotting: non-numeric, mapped to 0,
label preserved. -/
theorem cycle_value_encoding_witness :
    (cycleReading 0 "Menstrual Flow" "Spotting").unit = "Spotting" ∧
    (cycleReading 0 "Menstrual Flow" "Spotting").value =
      cycleCategoryScalar "Spotting" ∧
    cycleCategoryScalar "Spotting" = 0 :=
  ⟨(cycle_value_encoding 0 "Menstrual Flow" "Spotting").1,
   (cycle_value_encoding 0 "Menstrual Flow" "Spotting").2.1 (by decide),
   (cycle_value_encoding 0 "Menstrual Flow" "Spotting").2.2.2.2.2.2.2.2.2.1
     (by decide)⟩



/-- Claim C7 as stated is false: with eleven matching out-of-range readings
the check reports a count of 10 (the query is LIMIT 10), not the total count
of such readings, which is 11. -/
theorem hr_range_check_not_total_count :
    (hrElevenReadings.filter hrMatch).length = 11 ∧
    HRWarning.countLine 11 ∉ validate_heart_rate_range hrElevenReadings ∧
    HRWarning.countLine 10 ∈ validate_heart_rate_range hrElevenReadings := by
  refine ⟨by decide, by decide, by decide⟩

/-- Claim C7 amended: the range check retrieves the matching readings (metric
containing Heart Rate but not Variability or Recovery, value outside
[30, 220]) most-recent first, capped at 10 by the query's LIMIT — the
retrieved list is sorted by descending timestamp, is a permutation-prefix of
all matching readings whose left-out remainder is nowhere more recent, and
has length min(10, total); it warns with the size of that retrieved list —
min(10, total), not the total — then details exactly the first
min(3, retrieved) retrieved readings in retrieval order, and summarizes the
rest of the retrieved list as a plus-N-more line with N = min(10, total) - 3
exactly when more than 3 were retrieved; there is no output iff no reading
matches. -/
theorem hr_range_check_capped_reporting (readings : List Reading) :
    (validate_heart_rate_range readings = [] ↔ readings.filter hrMatch = []) ∧
    (readings.filter hrMatch ≠ [] →
      ∃ outs rest,
        outs.Pairwise tsDesc ∧
        (readings.filter hrMatch).Perm (outs ++ rest) ∧
        (∀ a ∈ outs, ∀ b ∈ rest, tsDesc a b) ∧
        outs.length = min 10 (readings.filter hrMatch).length ∧
        validate_heart_rate_range readings =
          [HRWarning.countLine outs.length] ++
          (outs.take 3).map
            (fun r => HRWarning.detailLine r.timestamp r.metric r.value) ++
          (if 3 < outs.length then
            [HRWarning.moreLine (outs.length - 3)] else [])) ∧
    (∀ n, HRWarning.countLine n ∈ validate_heart_rate_range readings →
      n = min 10 (readings.filter hrMatch).length) ∧
    (∀ ts m v, HRWarning.detailLine ts m v ∈ validate_heart_rate_range readings →
      ∃ r, r ∈ readings ∧ hrMatch r = true ∧ r.timestamp = ts ∧ r.metric = m ∧
        r.value = v) ∧
    (∀ n, HRWarning.moreLine n ∈ validate_heart_rate_range readings ↔
      3 < min 10 (readings.filter hrMatch).length ∧
      n = min 10 (readings.filter hrMatch).length - 3) := by
  have hlen : (hrOutliers readings).length = min 10 (readings.filter hrMatch).length := by
    unfold hrOutliers
    rw [List.length_take, (List.perm_insertionSort tsDesc (readings.filter hrMatch)).length_eq]
  have hOmem : ∀ r ∈ hrOutliers readings, r ∈ readings ∧ hrMatch r = true := by
    intro r hr
    have h1 : r ∈ (readings.filter hrMatch).insertionSort tsDesc :=
      List.mem_of_mem_take hr
    have h2 : r ∈ readings.filter hrMatch := (List.mem_insertionSort tsDesc).mp h1
    exact ⟨(List.mem_filter.mp h2).1, (List.mem_filter.mp h2).2⟩
  by_cases hO : hrOutliers readings = []
  · have hfil : readings.filter hrMatch = [] := by
      have hz := hlen
      rw [hO] at hz
      simp only [List.length_nil] at hz
      rcases Nat.min_eq_zero_iff.mp hz.symm with h | h
      · omega
      · exact List.length_eq_zero.mp h
    have hval : validate_heart_rate_range readings = [] := by
      unfold validate_heart_rate_range
      simp [hO]
    refine ⟨by simp [hval, hfil], fun h => absurd hfil h, ?_, ?_, ?_⟩
    · intro n hn
      rw [hval] at hn
      cases hn
    · intro ts m v hn
      rw [hval] at hn
      cases hn
    · intro n
      rw [hval, hfil]
      simp
  · have hne : ¬ (hrOutliers readings).isEmpty := by
      simpa [List.isEmpty_iff] using hO
    have hval : validate_heart_rate_range readings =
        [HRWarning.countLine (hrOutliers readings).length] ++
        ((hrOutliers readings).take 3).map
          (fun r => HRWarning.detailLine r.timestamp r.metric r.value) ++
        (if 3 < (hrOutliers readings).length then
          [HRWarning.moreLine ((hrOutliers readings).length - 3)] else []) := by
      unfold validate_heart_rate_range
      simp only [hne, Bool.false_eq_true, if_false]
    have hfilne : readings.filter hrMatch ≠ [] := by
      intro hfil
      apply hO
      unfold hrOutliers
      rw [hfil]
      simp [List.insertionSort]
    refine ⟨?_, fun _ => ?_, ?_, ?_, ?_⟩
    · rw [hval]
      simp [hfilne]
    · have hsort : List.Pairwise tsDesc
          ((readings.filter hrMatch).insertionSort tsDesc) :=
        List.sorted_insertionSort tsDesc (readings.filter hrMatch)
      have hsplit : List.Pairwise tsDesc
          (((readings.filter hrMatch).insertionSort tsDesc).take 10 ++
           ((readings.filter hrMatch).insertionSort tsDesc).drop 10) := by
        rw [List.take_append_drop]
        exact hsort
      obtain ⟨hp1, -, hcross⟩ := List.pairwise_append.mp hsplit
      have hperm : (readings.filter hrMatch).Perm
          (((readings.filter hrMatch).insertionSort tsDesc).take 10 ++
           ((readings.filter hrMatch).insertionSort tsDesc).drop 10) := by
        rw [List.take_append_drop]
        exact (List.perm_insertionSort tsDesc (readings.filter hrMatch)).symm
      exact ⟨hrOutliers readings,
        ((readings.filter hrMatch).insertionSort tsDesc).drop 10,
        hp1, hperm, hcross, hlen, hval⟩
    · intro n hn
      rw [hval] at hn
      rw [← hlen]
      simp only [List.append_assoc, List.mem_append, List.mem_singleton,
        List.mem_map] at hn
      rcases hn with h1 | h2 | h3
      · exact congrArg (fun w => match w with
          | HRWarning.countLine k => k
          | _ => 0) h1
      · obtain ⟨r, -, hr⟩ := h2
        cases hr
      · by_cases hmore : 3 < (hrOutliers readings).length
        · rw [if_pos hmore] at h3
          cases List.mem_singleton.mp h3
        · rw [if_neg hmore] at h3
          cases h3
    · intro ts m v hn
      rw [hval] at hn
      simp only [List.append_assoc, List.mem_append, List.mem_singleton,
        List.mem_map] at hn
      rcases hn with h1 | h2 | h3
      · cases h1
      · obtain ⟨r, hrmem, hr⟩ := h2
        obtain ⟨hrr, hrm⟩ := hOmem r (List.mem_of_mem_take hrmem)
        cases hr
        exact ⟨r, hrr, hrm, rfl, rfl, rfl⟩
      · by_cases hmore : 3 < (hrOutliers readings).length
        · rw [if_pos hmore] at h3
          cases List.mem_singleton.mp h3
        · rw [if_neg hmore] at h3
          cases h3
    · intro n
      rw [hval, ← hlen]
      constructor
      · intro hn
        simp only [List.append_assoc, List.mem_append, List.mem_singleton,
          List.mem_map] at hn
        rcases hn with h1 | h2 | h3
        · cases h1
        · obtain ⟨r, -, hr⟩ := h2
          cases hr
        · by_cases hmore : 3 < (hrOutliers readings).length
          · rw [if_pos hmore] at h3
            cases List.mem_singleton.mp h3
            exact ⟨hmore, rfl⟩
          · rw [if_neg hmore] at h3
            cases h3
      · rintro ⟨hmore, rfl⟩
        simp only [List.append_assoc, List.mem_append, List.mem_singleton]
        right; right
        rw [if_pos hmore]
        simp

/-- Witness for C7 amended at the eleven-reading input: the retrieved list is
sorted most-recent first, holds the min(10, 11) = 10 most recent of the
eleven matches, exactly its first 3 entries are detailed, and the more line
says 10 - 3 = 7. -/
theorem hr_range_check_capped_reporting_witness :
    (∃ outs rest,
      outs.Pairwise tsDesc ∧
      (hrElevenReadings.filter hrMatch).Perm (outs ++ rest) ∧
      (∀ a ∈ outs, ∀ b ∈ rest, tsDesc a b) ∧
      outs.length = min 10 (hrElevenReadings.filter hrMatch).length ∧
      validate_heart_rate_range hrElevenReadings =
        [HRWarning.countLine outs.length] ++
        (outs.take 3).map
          (fun r => HRWarning.detailLine r.timestamp r.metric r.value) ++
        (if 3 < outs.length then
          [HRWarning.moreLine (outs.length - 3)] else [])) ∧
    (HRWarning.moreLine 7 ∈ validate_heart_rate_range hrElevenReadings ↔
      3 < min 10 (hrElevenReadings.filter hrMatch).length ∧
      7 = min 10 (hrElevenReadings.filter hrMatch).length - 3) :=
  ⟨(hr_range_check_capped_reporting hrElevenReadings).2.1 (by decide),
   (hr_range_check_capped_reporting hrElevenReadings).2.2.2.2 7⟩

/-- Claim C4 as stated is false: the rolling-average frame
ROWS BETWEEN 7 PRECEDING AND 1 PRECEDING yields a non-NULL average as soon
as one prior row exists, so a day whose trailing window is not yet full is
not skipped.  With resting-HR days (100, 60 bpm) and (101, 80 bpm) and
today = 101, day 101 has a single prior day — far fewer than 7 — yet the
detector flags it (baseline 60, deviation 20). -/
theorem anomaly_detector_flags_unfull_window :
    detect_resting_hr_anomalies [((100 : Int), (60 : ℚ)), (101, 80)] 101 =
      [⟨101, 80, 60, 20⟩] ∧
    (([((100 : Int), (60 : ℚ)), (101, 80)].filter fun p => p.1 < 101).length < 7) := by
  constructor
  · have hw : withRolling [((100 : Int), (60 : ℚ)), (101, 80)] =
        [(100, 60, none), (101, 80, some 60)] := by
      norm_num [withRolling, rollingEntry, rollingWindow, sqlAvg, List.enum]
    rw [detect_resting_hr_anomalies, anomalyRows, hw]
    norm_num [anomalyOf, sqlAbs, RESTING_HR_DEVIATION_THRESHOLD,
      ANOMALY_LOOKBACK_DAYS, List.filterMap]
  · decide

/-- A successful anomalyOf preserves the row's date. -/
lemma anomalyOf_date (today : Int) (t : Int × ℚ × Option ℚ) (a : Anomaly)
    (h : anomalyOf today t = some a) : a.date = t.1 := by
  unfold anomalyOf at h
  cases ht : t.2.2 with
  | none => rw [ht] at h; cases h
  | some r =>
      rw [ht] at h
      dsimp only at h
      by_cases hc : sqlAbs (t.2.1 - r) > RESTING_HR_DEVIATION_THRESHOLD ∧
          t.1 ≥ today - ANOMALY_LOOKBACK_DAYS
      · rw [if_pos hc] at h
        cases h
        rfl
      · rw [if_neg hc] at h
        cases h

/-- A filterMap whose function turns related inputs into related outputs
preserves pairwiseness. -/
lemma pairwise_filterMap_of_rel {α β : Type} (f : α → Option β)
    {R : α → α → Prop} {S : β → β → Prop}
    (hf : ∀ a b x y, R a b → f a = some x → f b = some y → S x y) :
    ∀ l : List α, l.Pairwise R → (l.filterMap f).Pairwise S := by
  intro l
  induction l with
  | nil => intro _; simp
  | cons a l ih =>
      intro hp
      rw [List.filterMap_cons]
      rcases List.pairwise_cons.mp hp with ⟨hhead, htail⟩
      cases hfa : f a with
      | none => exact ih htail
      | some x =>
          rw [List.pairwise_cons]
          refine ⟨?_, ih htail⟩
          intro y hy
          obtain ⟨b, hb, hfb⟩ := List.mem_filterMap.mp hy
          exact hf a b x y (hhead b hb) hfa hfb

/-- The anomaly rows are strictly ascending in date when the per-date series
is. -/
lemma anomalyRows_pairwise (days : List (Int × ℚ)) (today : Int)
    (hsorted : days.Pairwise fun p q => p.1 < q.1) :
    (anomalyRows days today).Pairwise fun a b => a.date < b.date := by
  have hen : days.enum.Pairwise fun p q : Nat × Int × ℚ => p.2.1 < q.2.1 := by
    have h2 := hsorted
    rw [← List.enum_map_snd days] at h2
    exact (@List.pairwise_map (Nat × Int × ℚ) (Int × ℚ)
      Prod.snd (fun p q => p.1 < q.1) days.enum).mp h2
  have hwr : (withRolling days).Pairwise fun t u : Int × ℚ × Option ℚ => t.1 < u.1 := by
    unfold withRolling
    exact (@List.pairwise_map (Nat × Int × ℚ) (Int × ℚ × Option ℚ)
      (rollingEntry days) (fun t u => t.1 < u.1) days.enum).mpr hen
  unfold anomalyRows
  refine pairwise_filterMap_of_rel (anomalyOf today) ?_ (withRolling days) hwr
  intro t u x y hR hx hy
  rw [anomalyOf_date today t x hx, anomalyOf_date today u y hy]
  exact hR

/-- Claim C4 amended: for every strictly date-sorted per-day resting-HR
series, the baseline of a day is NULL — and the day is skipped — exactly
when the day is the first of the series (no prior day with data at all, not
a seven-day-full-window requirement); otherwise the baseline averages the
min(i, 7) most recent prior days with data.  A day is flagged iff its
baseline exists, its absolute deviation from the baseline exceeds 15 bpm and
its date lies within the trailing 30-day lookback window; each flagged row
carries the day's value, the rolling baseline and the deviation magnitude.
The report is at most 5 rows, each a flagged row, strictly most-recent
first, and every flagged day left out is older than every reported one (the
report is the 5 most recent). -/
theorem resting_hr_anomaly_detection_characterized (days : List (Int × ℚ))
    (today : Int) (hsorted : days.Pairwise fun p q => p.1 < q.1) :
    (∀ i (hi : i < (withRolling days).length),
      (((withRolling days).get ⟨i, hi⟩).2.2 = none ↔ i = 0)) ∧
    (∀ i, i < days.length → (rollingWindow (days.map Prod.snd) i).length = min i 7) ∧
    (∀ a : Anomaly, a ∈ anomalyRows days today ↔
      ∃ d v r, (d, v, some r) ∈ withRolling days ∧
        a = ⟨d, v, r, sqlAbs (v - r)⟩ ∧
        sqlAbs (v - r) > RESTING_HR_DEVIATION_THRESHOLD ∧
        d ≥ today - ANOMALY_LOOKBACK_DAYS) ∧
    (detect_resting_hr_anomalies days today).length ≤ 5 ∧
    (∀ a ∈ detect_resting_hr_anomalies days today, a ∈ anomalyRows days today) ∧
    (detect_resting_hr_anomalies days today).Pairwise (fun a b => b.date < a.date) ∧
    (∀ a ∈ anomalyRows days today, a ∉ detect_resting_hr_anomalies days today →
      (detect_resting_hr_anomalies days today).length = 5 ∧
      ∀ b ∈ detect_resting_hr_anomalies days today, a.date < b.date) := by
  have hlenw : (withRolling days).length = days.length := by
    simp [withRolling, List.enum_length]
  have hwin : ∀ i, i < days.length →
      (rollingWindow (days.map Prod.snd) i).length = min i 7 := by
    intro i hi
    unfold rollingWindow
    rw [List.length_drop, List.length_take, List.length_map]
    omega
  have hpair := anomalyRows_pairwise days today hsorted
  have hrevpair : (anomalyRows days today).reverse.Pairwise
      (fun a b : Anomaly => b.date < a.date) :=
    List.pairwise_reverse.mpr hpair
  refine ⟨?_, hwin, ?_, ?_, ?_, ?_, ?_⟩
  · intro i hi
    have hid : days.enum.length = days.length := List.enum_length
    have hget : (withRolling days).get ⟨i, hi⟩ =
        rollingEntry days (days.enum.get ⟨i, by rw [hid]; omega⟩) := by
      unfold withRolling
      exact List.get_map (rollingEntry days)
    have hgeten : days.enum.get ⟨i, by rw [hid]; omega⟩ =
        (i, days.get ⟨i, by omega⟩) := by
      have := List.getElem_enum days i (by rw [hid]; omega)
      simpa using this
    rw [hget, hgeten]
    unfold rollingEntry sqlAvg
    have hlenwin := hwin i (by omega)
    constructor
    · intro hnone
      by_cases hw0 : rollingWindow (days.map Prod.snd) i = []
      · have := hlenwin
        rw [hw0] at this
        simp only [List.length_nil] at this
        omega
      · simp only [if_neg hw0] at hnone
        cases hnone
    · intro hi0
      subst hi0
      have hw0 : rollingWindow (days.map Prod.snd) 0 = [] := by
        refine List.length_eq_zero.mp ?_
        rw [hlenwin]
        simp
      simp [hw0]
  · intro a
    unfold anomalyRows
    rw [List.mem_filterMap]
    constructor
    · rintro ⟨t, htmem, hta⟩
      rcases t with ⟨d, v, ropt⟩
      cases ropt with
      | none => unfold anomalyOf at hta; cases hta
      | some r =>
          unfold anomalyOf at hta
          by_cases hc : sqlAbs (v - r) > RESTING_HR_DEVIATION_THRESHOLD ∧
              d ≥ today - ANOMALY_LOOKBACK_DAYS
          · simp only at hta
            rw [if_pos hc] at hta
            cases hta
            exact ⟨d, v, r, htmem, rfl, hc.1, hc.2⟩
          · simp only at hta
            rw [if_neg hc] at hta
            cases hta
    · rintro ⟨d, v, r, htmem, rfl, hdev, hlook⟩
      refine ⟨(d, v, some r), htmem, ?_⟩
      unfold anomalyOf
      simp only
      rw [if_pos ⟨hdev, hlook⟩]
  · unfold detect_resting_hr_anomalies
    rw [List.length_take]
    omega
  · intro a ha
    unfold detect_resting_hr_anomalies at ha
    exact List.mem_reverse.mp (List.mem_of_mem_take ha)
  · unfold detect_resting_hr_anomalies
    exact List.Pairwise.sublist (List.take_sublist 5 _) hrevpair
  · intro a ha hnot
    unfold detect_resting_hr_anomalies at hnot ⊢
    have haL : a ∈ (anomalyRows days today).reverse := List.mem_reverse.mpr ha
    have hsplit := List.take_append_drop 5 (anomalyRows days today).reverse
    have hadrop : a ∈ (anomalyRows days today).reverse.drop 5 := by
      rcases List.mem_append.mp (by rw [hsplit]; exact haL) with h | h
      · exact absurd h hnot
      · exact h
    have hlen5 : ((anomalyRows days today).reverse.take 5).length = 5 := by
      have h1 : (anomalyRows days today).reverse.drop 5 ≠ [] := by
        intro hnil
        rw [hnil] at hadrop
        cases hadrop
      have h2 : (anomalyRows days today).reverse.length - 5 ≠ 0 := by
        intro h0
        apply h1
        rw [← List.length_eq_zero, List.length_drop]
        exact h0
      rw [List.length_take]
      omega
    refine ⟨hlen5, ?_⟩
    intro b hb
    have hpairL : ((anomalyRows days today).reverse.take 5 ++
        (anomalyRows days today).reverse.drop 5).Pairwise
        (fun a b : Anomaly => b.date < a.date) := by
      rw [hsplit]
      exact hrevpair
    exact (List.pairwise_append.mp hpairL).2.2 b hb a hadrop

/-- Witness for C4 amended at a concrete two-day series: the report has at
most five rows, day 101 is flagged with baseline 60 and deviation 20, and
the first day's baseline is NULL. -/
theorem resting_hr_anomaly_detection_characterized_witness :
    (detect_resting_hr_anomalies [((100 : Int), (60 : ℚ)), (101, 80)] 101).length ≤ 5 ∧
    (((withRolling [((100 : Int), (60 : ℚ)), (101, 80)]).get
      ⟨0, by norm_num [withRolling, List.enum_length]⟩).2.2 = none ↔ (0 : Nat) = 0) :=
  ⟨(resting_hr_anomaly_detection_characterized [((100 : Int), (60 : ℚ)), (101, 80)]
      101 (by decide)).2.2.2.1,
   (resting_hr_anomaly_detection_characterized [((100 : Int), (60 : ℚ)), (101, 80)]
      101 (by decide)).1 0 (by norm_num [withRolling, List.enum_length])⟩

/-! ## Helper lemmas for the parser refinement (claim C5) -/

lemma dropWhile_append_of_all {p : Char → Bool} :
    ∀ (xs ys : List Char), (∀ x ∈ xs, p x = true) →
      (xs ++ ys).dropWhile p = ys.dropWhile p := by
  intro xs ys hall
  induction xs with
  | nil => rfl
  | cons x xs ih =>
      rw [List.cons_append, List.dropWhile_cons, if_pos (hall x (by simp))]
      exact ih fun y hy => hall y (List.mem_cons_of_mem x hy)

lemma stripRightChars_append_ws (A W : List Char)
    (hW : ∀ c ∈ W, wsChar c = true) :
    stripRightChars (A ++ W) = stripRightChars A := by
  unfold stripRightChars
  rw [List.reverse_append]
  rw [dropWhile_append_of_all W.reverse A.reverse
    (fun c hc => hW c (List.mem_reverse.mp hc))]

lemma stripRightChars_append_nonws (A : List Char) (c : Char)
    (hc : wsChar c = false) :
    stripRightChars (A ++ [c]) = A ++ [c] := by
  unfold stripRightChars
  rw [List.reverse_append]
  simp only [List.reverse_singleton, List.singleton_append, List.dropWhile_cons,
    hc, Bool.false_eq_true, if_false]
  rw [List.reverse_cons, List.reverse_reverse]

lemma stripRightChars_length_le (A : List Char) :
    (stripRightChars A).length ≤ A.length := by
  unfold stripRightChars
  rw [List.length_reverse]
  calc (A.reverse.dropWhile wsChar).length ≤ A.reverse.length :=
        (List.dropWhile_sublist wsChar).length_le
    _ = A.length := List.length_reverse A

/-- The list splits as its right-strip followed by a whitespace suffix. -/
lemma stripRightChars_split (A : List Char) :
    A = stripRightChars A ++ (A.reverse.takeWhile wsChar).reverse := by
  calc A = (A.reverse.takeWhile wsChar ++ A.reverse.dropWhile wsChar).reverse := by
        rw [List.takeWhile_append_dropWhile, List.reverse_reverse]
    _ = (A.reverse.dropWhile wsChar).reverse ++ (A.reverse.takeWhile wsChar).reverse := by
        rw [List.reverse_append]
    _ = stripRightChars A ++ (A.reverse.takeWhile wsChar).reverse := rfl

/-- Dropping the right-strip leaves the whitespace suffix. -/
lemma drop_stripRightChars_length (A : List Char) :
    A.drop (stripRightChars A).length = (A.reverse.takeWhile wsChar).reverse := by
  have h2 := congrArg (List.drop (stripRightChars A).length) (stripRightChars_split A)
  rw [List.drop_left] at h2
  exact h2

/-- The characters a right-strip removes are whitespace. -/
lemma ws_of_mem_drop_stripRight (A : List Char) :
    ∀ c ∈ A.drop (stripRightChars A).length, wsChar c = true := by
  intro c hc
  rw [drop_stripRightChars_length] at hc
  exact List.mem_takeWhile_imp (List.mem_reverse.mp hc)

/-- stripRight is a prefix: the list splits as strip plus whitespace. -/
lemma stripRightChars_append_drop (A : List Char) :
    stripRightChars A ++ A.drop (stripRightChars A).length = A := by
  rw [drop_stripRightChars_length]
  exact (stripRightChars_split A).symm

lemma find?_range'_eq_some (p : Nat → Bool) :
    ∀ (n s j : Nat), s ≤ j → j < s + n → p j = true →
      (∀ i, s ≤ i → i < j → p i = false) →
      (List.range' s n).find? p = some j := by
  intro n
  induction n with
  | zero => intro s j h1 h2; omega
  | succ n ih =>
      intro s j h1 h2 hp hmin
      rw [List.range'_succ, List.find?_cons]
      by_cases hsj : s = j
      · subst hsj
        rw [hp]
      · have hps : p s = false := hmin s le_rfl (by omega)
        rw [hps]
        exact ih (s + 1) j (by omega) (by omega) hp
          (fun i hi1 hi2 => hmin i (by omega) hi2)

lemma find?_range_eq_some (p : Nat → Bool) (n j : Nat) (hj : j < n)
    (hp : p j = true) (hmin : ∀ i, i < j → p i = false) :
    (List.range n).find? p = some j := by
  rw [List.range_eq_range']
  exact find?_range'_eq_some p n 0 j (Nat.zero_le j) (by omega) hp
    (fun i _ hi2 => hmin i hi2)

lemma find?_range_eq_none (p : Nat → Bool) (n : Nat)
    (hall : ∀ j, p j = false) :
    (List.range n).find? p = none := by
  rw [List.find?_eq_none]
  intro x _
  rw [hall x]
  simp

/-- Unpack a validJ split: the index carries an open parenthesis, the unit
group matches, the index is positive, and the shortest name is
newline-free. -/
lemma validJ_unpack (s : List Char) (j : Nat) (h : validJ s j = true) :
    s.get? j = some '(' ∧ (unitGroup (s.drop (j + 1))).isSome = true ∧
    1 ≤ j ∧ '\n' ∉ s.take (nameBound s j) := by
  unfold validJ at h
  simp only [Bool.and_eq_true, decide_eq_true_eq, Bool.not_eq_eq_eq_not,
    Bool.not_true, decide_eq_false_iff_not] at h
  exact ⟨by simpa using h.1.1.1, by simpa using h.1.1.2, h.1.2, h.2⟩

/-- At a valid split index, skipping whitespace from the shortest-name
boundary lands exactly on the open parenthesis: the engine's after-name
match succeeds there with the very unit group of the split. -/
lemma matchAfterName_of_validJ (s : List Char) (j : Nat) (h : validJ s j = true) :
    matchAfterName (s.drop (nameBound s j)) = unitGroup (s.drop (j + 1)) := by
  obtain ⟨h1, h2, h3, -⟩ := validJ_unpack s j h
  obtain ⟨hjlt, hgetj⟩ := List.get?_eq_some.mp h1
  have hAlen : (s.take j).length = j := by
    rw [List.length_take]
    omega
  have hble : (stripRightChars (s.take j)).length ≤ j := by
    calc (stripRightChars (s.take j)).length ≤ (s.take j).length :=
          stripRightChars_length_le _
      _ = j := hAlen
  have hkj : nameBound s j ≤ j := by
    unfold nameBound
    omega
  have hdropj : s.drop j = '(' :: s.drop (j + 1) := by
    rw [List.drop_eq_getElem_cons hjlt]
    congr 1
  have hs : s = s.take j ++ ('(' :: s.drop (j + 1)) := by
    conv_lhs => rw [← List.take_append_drop j s]
    rw [hdropj]
  have hksplit : s.drop (nameBound s j) =
      (s.take j).drop (nameBound s j) ++ ('(' :: s.drop (j + 1)) := by
    have hc := congrArg (List.drop (nameBound s j)) hs
    rw [List.drop_append_of_le_length (by rw [hAlen]; exact hkj)] at hc
    exact hc
  have hseg : ∀ c ∈ (s.take j).drop (nameBound s j), wsChar c = true := by
    intro c hc
    have hbk : (stripRightChars (s.take j)).length ≤ nameBound s j :=
      le_max_left _ _
    have hc2 : c ∈ ((s.take j).drop (stripRightChars (s.take j)).length).drop
        (nameBound s j - (stripRightChars (s.take j)).length) := by
      rw [List.drop_drop]
      have heq : (stripRightChars (s.take j)).length +
          (nameBound s j - (stripRightChars (s.take j)).length) = nameBound s j := by
        omega
      rw [heq]
      exact hc
    exact ws_of_mem_drop_stripRight (s.take j) c (List.mem_of_mem_drop hc2)
  unfold matchAfterName
  rw [hksplit, dropWhile_append_of_all _ _ hseg, List.dropWhile_cons,
    if_neg (by intro hw; cases hw)]
  rfl

lemma matchAfterName_some_decomp (rest' u : List Char)
    (h : matchAfterName rest' = some u) :
    ∃ v, rest'.dropWhile wsChar = '(' :: v ∧ unitGroup v = some u := by
  unfold matchAfterName at h
  split at h
  · next v heq => exact ⟨v, heq, h⟩
  · cases h

lemma matchAfterName_cons_ws (c : Char) (l : List Char) (hc : wsChar c = true) :
    matchAfterName (c :: l) = matchAfterName l := by
  unfold matchAfterName
  rw [List.dropWhile_cons, if_pos hc]

lemma nameBound_pos (s : List Char) (j : Nat) : 1 ≤ nameBound s j :=
  le_max_right _ 1

lemma nameBound_le (s : List Char) (j : Nat) (h3 : 1 ≤ j) (hjlt : j < s.length) :
    nameBound s j ≤ j := by
  have h1 : (stripRightChars (s.take j)).length ≤ j := by
    calc (stripRightChars (s.take j)).length ≤ (s.take j).length :=
          stripRightChars_length_le _
      _ ≤ j := by rw [List.length_take]; omega
  unfold nameBound
  omega

lemma validJ_false_of_fail (s : List Char) (j : Nat)
    (hfail : matchAfterName (s.drop (nameBound s j)) = none) :
    validJ s j = false := by
  by_contra hv
  rw [Bool.not_eq_false] at hv
  obtain ⟨-, h2, -, -⟩ := validJ_unpack s j hv
  rw [matchAfterName_of_validJ s j hv] at hfail
  rw [hfail] at h2
  cases h2



lemma lazyScan_eq_specResult :
    ∀ (rest nameRev : List Char),
      '\n' ∉ nameRev →
      (∀ k, 1 ≤ k → k ≤ nameRev.length →
        matchAfterName ((nameRev.reverse ++ rest).drop k) = none) →
      lazyScan nameRev rest = specResult (nameRev.reverse ++ rest) := by
  intro rest
  induction rest with
  | nil =>
      intro nameRev hnl hfail
      show none = specResult (nameRev.reverse ++ [])
      have hall : ∀ j, validJ (nameRev.reverse ++ []) j = false := by
        intro j
        by_cases hjlt : j < (nameRev.reverse ++ ([] : List Char)).length
        · by_cases h1j : 1 ≤ j
          · apply validJ_false_of_fail
            apply hfail
            · exact nameBound_pos _ j
            · have hk := nameBound_le (nameRev.reverse ++ []) j h1j hjlt
              have hlen : (nameRev.reverse ++ ([] : List Char)).length = nameRev.length := by
                simp
              omega
          · by_contra hv
            rw [Bool.not_eq_false] at hv
            obtain ⟨-, -, h3, -⟩ := validJ_unpack _ j hv
            omega
        · by_contra hv
          rw [Bool.not_eq_false] at hv
          obtain ⟨h1, -, -, -⟩ := validJ_unpack _ j hv
          obtain ⟨hlt, -⟩ := List.get?_eq_some.mp h1
          omega
      unfold specResult specSplitIdx
      rw [find?_range_eq_none _ _ hall]
  | cons c rest' ih =>
      intro nameRev hnl hfail
      show lazyScan nameRev (c :: rest') = _
      unfold lazyScan
      have hdropL : (nameRev.reverse ++ c :: rest').drop nameRev.length = c :: rest' := by
        have h0 := List.drop_left nameRev.reverse (c :: rest')
        rwa [List.length_reverse] at h0
      have hdropL1 : (nameRev.reverse ++ c :: rest').drop (nameRev.length + 1) = rest' := by
        have h0 := congrArg (List.drop 1) hdropL
        rw [List.drop_drop] at h0
        simpa using h0
      by_cases hc : c = '\n'
      · subst hc
        rw [if_pos rfl]
        have hall : ∀ j, validJ (nameRev.reverse ++ '\n' :: rest') j = false := by
          intro j
          by_cases hjlt : j < (nameRev.reverse ++ '\n' :: rest').length
          · by_cases h1j : 1 ≤ j
            · by_cases hkL : nameBound (nameRev.reverse ++ '\n' :: rest') j ≤ nameRev.length
              · exact validJ_false_of_fail _ j (hfail _ (nameBound_pos _ j) hkL)
              · by_contra hv
                rw [Bool.not_eq_false] at hv
                obtain ⟨-, -, -, h4⟩ := validJ_unpack _ j hv
                apply h4
                have hgetc : (nameRev.reverse ++ '\n' :: rest').get?
                    nameRev.length = some '\n' := by
                  rw [List.get?_eq_getElem?, ← List.head?_drop, hdropL]
                  rfl
                obtain ⟨hlt2, hget2⟩ := List.get?_eq_some.mp hgetc
                have hlen3 : nameRev.length <
                    ((nameRev.reverse ++ '\n' :: rest').take
                      (nameBound (nameRev.reverse ++ '\n' :: rest') j)).length := by
                  rw [List.length_take]
                  omega
                have hgt : ((nameRev.reverse ++ '\n' :: rest').take
                    (nameBound (nameRev.reverse ++ '\n' :: rest') j)).get
                    ⟨nameRev.length, hlen3⟩ = '\n' := by
                  rw [List.get_eq_getElem, List.getElem_take]
                  exact hget2
                have hmem0 := List.get_mem _ nameRev.length hlen3
                rwa [hgt] at hmem0
            · by_contra hv
              rw [Bool.not_eq_false] at hv
              obtain ⟨-, -, h3, -⟩ := validJ_unpack _ j hv
              omega
          · by_contra hv
            rw [Bool.not_eq_false] at hv
            obtain ⟨h1, -, -, -⟩ := validJ_unpack _ j hv
            obtain ⟨hlt, -⟩ := List.get?_eq_some.mp h1
            omega
        unfold specResult specSplitIdx
        rw [find?_range_eq_none _ _ hall]
      · rw [if_neg hc]
        have hSeq : (c :: nameRev).reverse ++ rest' =
            nameRev.reverse ++ c :: rest' := by
          rw [List.reverse_cons, List.append_assoc]
          rfl
        cases hm : matchAfterName rest' with
        | none =>
            have hIH := ih (c :: nameRev)
              (by
                intro hmem
                rcases List.mem_cons.mp hmem with h | h
                · exact hc h.symm
                · exact hnl h)
              (by
                intro k hk1 hk2
                rw [hSeq]
                rcases Nat.lt_or_ge k (nameRev.length + 1) with hlt | hge
                · exact hfail k hk1 (by omega)
                · have hkeq : k = nameRev.length + 1 := by
                    simp at hk2
                    omega
                  subst hkeq
                  rw [hdropL1]
                  exact hm)
            rw [hIH, hSeq]
        | some u =>
            obtain ⟨v, hdw, hug⟩ := matchAfterName_some_decomp rest' u hm
            have hrest' : rest' = rest'.takeWhile wsChar ++ '(' :: v := by
              conv_lhs => rw [← List.takeWhile_append_dropWhile wsChar rest']
              rw [hdw]
            have htw_ws : ∀ x ∈ rest'.takeWhile wsChar, wsChar x = true :=
              fun x hx => List.mem_takeWhile_imp hx
            have hS2 : nameRev.reverse ++ c :: rest' =
                (nameRev.reverse ++ [c]) ++ rest' := by
              simp
            have hS3 : nameRev.reverse ++ c :: rest' =
                ((nameRev.reverse ++ [c]) ++ rest'.takeWhile wsChar) ++ ('(' :: v) := by
              rw [hS2]
              conv_lhs => rw [hrest']
              simp only [List.append_assoc]
            have hplen : ((nameRev.reverse ++ [c]) ++ rest'.takeWhile wsChar).length =
                nameRev.length + 1 + (rest'.takeWhile wsChar).length := by
              simp
              omega
            have hdropj0 : (nameRev.reverse ++ c :: rest').drop
                (nameRev.length + 1 + (rest'.takeWhile wsChar).length) = '(' :: v := by
              calc (nameRev.reverse ++ c :: rest').drop
                    (nameRev.length + 1 + (rest'.takeWhile wsChar).length)
                  = (((nameRev.reverse ++ [c]) ++ rest'.takeWhile wsChar) ++ ('(' :: v)).drop
                      ((nameRev.reverse ++ [c]) ++ rest'.takeWhile wsChar).length := by
                    rw [← hS3, hplen]
                _ = '(' :: v := List.drop_left _ _
            have hgetj0 : (nameRev.reverse ++ c :: rest').get?
                (nameRev.length + 1 + (rest'.takeWhile wsChar).length) = some '(' := by
              rw [List.get?_eq_getElem?, ← List.head?_drop, hdropj0]
              rfl
            have hdropj1 : (nameRev.reverse ++ c :: rest').drop
                (nameRev.length + 1 + (rest'.takeWhile wsChar).length + 1) = v := by
              have h0 := congrArg (List.drop 1) hdropj0
              rw [List.drop_drop] at h0
              simpa using h0
            have hunit : unitGroup ((nameRev.reverse ++ c :: rest').drop
                (nameRev.length + 1 + (rest'.takeWhile wsChar).length + 1)) = some u := by
              rw [hdropj1]
              exact hug
            have htakej0 : (nameRev.reverse ++ c :: rest').take
                (nameRev.length + 1 + (rest'.takeWhile wsChar).length) =
                (nameRev.reverse ++ [c]) ++ rest'.takeWhile wsChar := by
              calc (nameRev.reverse ++ c :: rest').take
                    (nameRev.length + 1 + (rest'.takeWhile wsChar).length)
                  = (((nameRev.reverse ++ [c]) ++ rest'.takeWhile wsChar) ++ ('(' :: v)).take
                      ((nameRev.reverse ++ [c]) ++ rest'.takeWhile wsChar).length := by
                    rw [← hS3, hplen]
                _ = (nameRev.reverse ++ [c]) ++ rest'.takeWhile wsChar :=
                    List.take_left _ _
            have hL0 : wsChar c = true → nameRev = [] := by
              intro hcw
              by_contra hne
              have hL1 : 1 ≤ nameRev.length := by
                rcases nameRev with _ | ⟨x, xs⟩
                · exact absurd rfl hne
                · simp
              have hfl := hfail nameRev.length hL1 le_rfl
              rw [hdropL, matchAfterName_cons_ws c rest' hcw, hm] at hfl
              cases hfl
            have hnb : nameBound (nameRev.reverse ++ c :: rest')
                (nameRev.length + 1 + (rest'.takeWhile wsChar).length) =
                nameRev.length + 1 := by
              by_cases hcw : wsChar c = true
              · have hnr := hL0 hcw
                subst hnr
                unfold nameBound
                rw [htakej0]
                have hallws : ∀ x ∈ ([c] ++ rest'.takeWhile wsChar), wsChar x = true := by
                  intro x hx
                  rcases List.mem_append.mp hx with h | h
                  · rcases List.mem_singleton.mp h with rfl
                    exact hcw
                  · exact htw_ws x h
                have hstr : stripRightChars (([] : List Char) ++
                    ([c] ++ rest'.takeWhile wsChar)) = stripRightChars [] :=
                  stripRightChars_append_ws [] _ hallws
                simp only [List.reverse_nil, List.nil_append] at hstr ⊢
                rw [hstr]
                rfl
              · rw [Bool.not_eq_true] at hcw
                unfold nameBound
                rw [htakej0, stripRightChars_append_ws _ _ htw_ws,
                  stripRightChars_append_nonws _ c hcw]
                simp only [List.length_append, List.length_reverse,
                  List.length_singleton]
                omega
            have htakenb : (nameRev.reverse ++ c :: rest').take
                (nameBound (nameRev.reverse ++ c :: rest')
                  (nameRev.length + 1 + (rest'.takeWhile wsChar).length)) =
                nameRev.reverse ++ [c] := by
              rw [hnb]
              calc (nameRev.reverse ++ c :: rest').take (nameRev.length + 1)
                  = ((nameRev.reverse ++ [c]) ++ rest').take
                      (nameRev.reverse ++ [c]).length := by
                    rw [← hS2]
                    congr 1
                    simp
                _ = nameRev.reverse ++ [c] := List.take_left _ _
            have hnlname : '\n' ∉ (nameRev.reverse ++ c :: rest').take
                (nameBound (nameRev.reverse ++ c :: rest')
                  (nameRev.length + 1 + (rest'.takeWhile wsChar).length)) := by
              rw [htakenb]
              intro hmem
              rcases List.mem_append.mp hmem with h | h
              · exact hnl (List.mem_reverse.mp h)
              · rcases List.mem_singleton.mp h with h2
                exact hc h2.symm
            have hvalid : validJ (nameRev.reverse ++ c :: rest')
                (nameRev.length + 1 + (rest'.takeWhile wsChar).length) = true := by
              unfold validJ
              rw [hgetj0, hunit]
              simp only [hnlname]
              simp
              omega
            have hmin : ∀ i, i < nameRev.length + 1 + (rest'.takeWhile wsChar).length →
                validJ (nameRev.reverse ++ c :: rest') i = false := by
              intro i hij
              by_cases h1i : 1 ≤ i
              · by_cases hiL : i ≤ nameRev.length
                · apply validJ_false_of_fail
                  apply hfail _ (nameBound_pos _ _)
                  have hilt : i < (nameRev.reverse ++ c :: rest').length := by
                    simp
                    omega
                  have := nameBound_le (nameRev.reverse ++ c :: rest') i h1i hilt
                  omega
                · by_contra hv
                  rw [Bool.not_eq_false] at hv
                  obtain ⟨h1, -, -, -⟩ := validJ_unpack _ i hv
                  have hi' : i - (nameRev.length + 1) < (rest'.takeWhile wsChar).length := by
                    omega
                  have hgeti : (nameRev.reverse ++ c :: rest').get? i =
                      (rest'.takeWhile wsChar).get? (i - (nameRev.length + 1)) := by
                    have hstep : (nameRev.reverse ++ c :: rest').get? i =
                        ((nameRev.reverse ++ c :: rest').drop (nameRev.length + 1)).get?
                          (i - (nameRev.length + 1)) := by
                      rw [List.get?_eq_getElem?, List.get?_eq_getElem?,
                        List.getElem?_drop]
                      congr 1
                      omega
                    rw [hstep, hdropL1]
                    conv_lhs => rw [hrest']
                    exact List.get?_append hi'
                  rw [hgeti] at h1
                  have hmemtw : '(' ∈ rest'.takeWhile wsChar := List.get?_mem h1
                  have hws := htw_ws '(' hmemtw
                  cases hws
              · by_contra hv
                rw [Bool.not_eq_false] at hv
                obtain ⟨-, -, h3, -⟩ := validJ_unpack _ i hv
                omega
            have hj0lt : nameRev.length + 1 + (rest'.takeWhile wsChar).length <
                (nameRev.reverse ++ c :: rest').length :=
              (List.get?_eq_some.mp hgetj0).1
            have hidx : specSplitIdx (nameRev.reverse ++ c :: rest') =
                some (nameRev.length + 1 + (rest'.takeWhile wsChar).length) := by
              unfold specSplitIdx
              exact find?_range_eq_some _ _ _ hj0lt hvalid hmin
            unfold specResult
            rw [hidx]
            dsimp only
            rw [htakenb, hunit]
            simp [List.reverse_cons]



lemma dropWhile_idem_ws (l : List Char) :
    (l.dropWhile wsChar).dropWhile wsChar = l.dropWhile wsChar := by
  induction l with
  | nil => rfl
  | cons x xs ih =>
      rw [List.dropWhile_cons]
      by_cases hx : wsChar x = true
      · rw [if_pos hx]
        exact ih
      · rw [if_neg hx, List.dropWhile_cons, if_neg hx]

lemma stripRightChars_idem (A : List Char) :
    stripRightChars (stripRightChars A) = stripRightChars A := by
  unfold stripRightChars
  rw [List.reverse_reverse, dropWhile_idem_ws]

lemma stripRightChars_eq_take (A : List Char) :
    stripRightChars A = A.take (stripRightChars A).length := by
  have h := congrArg (List.take (stripRightChars A).length)
    (stripRightChars_append_drop A)
  rw [List.take_left] at h
  exact h

lemma stripChars_all_ws (l : List Char) (h : ∀ c ∈ l, wsChar c = true) :
    stripChars l = [] := by
  unfold stripChars stripRightChars stripLeftChars
  have hrev : ∀ c ∈ l.reverse, wsChar c = true :=
    fun c hc => h c (List.mem_reverse.mp hc)
  rw [List.dropWhile_eq_nil_iff.mpr fun c hc => hrev c hc]
  rfl

lemma stripChars_take_nameBound (s : List Char) (j : Nat) (h1j : 1 ≤ j) :
    stripChars (s.take (nameBound s j)) = stripChars (s.take j) := by
  by_cases hb : (stripRightChars (s.take j)).length = 0
  · have hz : stripRightChars (s.take j) = [] := List.length_eq_zero.mp hb
    have hallws : ∀ c ∈ s.take j, wsChar c = true := by
      intro c hc
      have h0 := ws_of_mem_drop_stripRight (s.take j)
      rw [hb] at h0
      exact h0 c (by simpa using hc)
    have hnb : nameBound s j = 1 := by
      unfold nameBound
      omega
    have hsub : ∀ c ∈ s.take 1, wsChar c = true := by
      intro c hc
      apply hallws
      have h1 : s.take 1 = (s.take j).take 1 := by
        rw [List.take_take]
        congr 1
        omega
      rw [h1] at hc
      exact List.mem_of_mem_take hc
    rw [hnb, stripChars_all_ws _ hsub, stripChars_all_ws _ hallws]
  · have hnb : nameBound s j = (stripRightChars (s.take j)).length := by
      unfold nameBound
      omega
    have hble : (stripRightChars (s.take j)).length ≤ j := by
      calc (stripRightChars (s.take j)).length ≤ (s.take j).length :=
            stripRightChars_length_le _
        _ ≤ j := by rw [List.length_take]; omega
    have htk : s.take (nameBound s j) = stripRightChars (s.take j) := by
      rw [hnb]
      calc s.take (stripRightChars (s.take j)).length
          = (s.take j).take (stripRightChars (s.take j)).length := by
            rw [List.take_take]
            congr 1
            omega
        _ = stripRightChars (s.take j) := (stripRightChars_eq_take (s.take j)).symm
    rw [htk]
    unfold stripChars
    rw [stripRightChars_idem]

/-- Claim C5 amended: parse_metric_column realizes the declarative reading of
the regex — it splits the header at the earliest open parenthesis followed
by a non-empty run free of close parentheses and the final close parenthesis
(so the unit may itself contain an open parenthesis), with a non-empty
newline-free name before it, stripping whitespace from both groups, and maps
every other header to (header, empty); in particular Active Energy (kcal)
splits into Active Energy and kcal, and Resting Heart Rate, with no
parenthesis, maps to itself with an empty unit. -/
theorem parse_metric_column_eq_spec (s : String) :
    parse_metric_column s = spec_parse_metric_column s ∧
    parse_metric_column "Active Energy (kcal)" = ("Active Energy", "kcal") ∧
    parse_metric_column "Body Mass Index (count)" = ("Body Mass Index", "count") ∧
    parse_metric_column "Resting Heart Rate" = ("Resting Heart Rate", "") := by
  refine ⟨?_, by rfl, by rfl, by rfl⟩
  have hmain := lazyScan_eq_specResult s.toList []
    (by simp)
    (by
      intro k h1 h2
      simp only [List.length_nil] at h2
      omega)
  rw [show (([] : List Char).reverse ++ s.toList) = s.toList by simp] at hmain
  unfold parse_metric_column spec_parse_metric_column
  rw [hmain]
  unfold specResult
  cases hidx : specSplitIdx s.toList with
  | none => rfl
  | some j =>
      dsimp only
      have hv : validJ s.toList j = true := List.find?_some hidx
      obtain ⟨-, -, h1j, -⟩ := validJ_unpack _ j hv
      rw [stripChars_take_nameBound s.toList j h1j]

/-- Claim C5 as stated is false: the unit group of the regex excludes only
close parentheses, so the unit may contain an open parenthesis, and the
lazy first group makes the split happen at the first candidate open
parenthesis.  The header foo (a(b) is of the claimed shape
name(unit) with the parenthesis-free unit b (name foo (a), yet the code
returns (foo, a(b) — neither that split nor (header, empty). -/
theorem parse_metric_column_unit_contains_paren :
    parse_metric_column "foo (a(b)" = ("foo", "a(b") ∧
    "foo (a(b)" = "foo (a" ++ "(" ++ "b" ++ ")" ∧
    ('(' ∈ "b".toList) = False ∧ (')' ∈ "b".toList) = False ∧ "b" ≠ "" ∧
    ("foo", "a(b") ≠ (("foo (a", "b") : String × String) ∧
    ("foo", "a(b") ≠ (("foo (a(b)", "") : String × String) := by
  refine ⟨by rfl, by rfl, by simp, by simp, by decide, by decide, by decide⟩

end HealthClawkit
